import Mathlib

/-!
Shallow embedding of the FSI SRS scheduling engine
(source: src/www/js/fsi-srs.js) and proofs about its claims.

Timestamps are modelled as rational numbers of milliseconds.
Stability is modelled as a real number because the FSRS stability
updates use `exp` and real powers; every other numeric card field is
rational, exactly mirroring the arithmetic in the source.
-/

namespace FsiSrs

/-- Rating enum of the source (`Rating: {Again: 1, Hard: 2, Good: 3, Easy: 4}`). -/
inductive Rating where
  | Again
  | Hard
  | Good
  | Easy
deriving DecidableEq

/-- Numeric value of a rating, as in the source enum. -/
def Rating.val : Rating → ℕ
  | .Again => 1
  | .Hard => 2
  | .Good => 3
  | .Easy => 4

/-- Card state enum of the source (`State: {New: 0, Learning: 1, Review: 2, Relearning: 3}`). -/
inductive CState where
  | New
  | Learning
  | Review
  | Relearning
deriving DecidableEq

/-- One error record of `card.error_history` (`{type, timestamp}`). -/
structure ErrorRec where
  etype : String
  timestamp : ℚ
deriving DecidableEq

/-- Milliseconds in a minute (`setMinutes` steps of the source). -/
def msPerMinute : ℚ := 60000

/-- Milliseconds in a day (the source divides by `1000*60*60*24`). -/
def msPerDay : ℚ := 86400000

/-- The default FSRS weight vector `params.w` of the source. -/
def w : List ℚ :=
  [0.4, 0.6, 2.4, 5.8, 4.93, 0.94, 0.86, 0.01,
   1.49, 0.14, 0.94, 2.18, 0.05, 0.34, 1.26, 0.29, 2.61]

/-- Indexed access to the weight vector. -/
def wq (i : ℕ) : ℚ := w.getD i 0

/-- The default `params.requestRetention = 0.9`. -/
def requestRetention : ℚ := 0.9

/-- The default `params.maximumInterval = 36500` days. -/
def maximumInterval : ℚ := 36500

/-- The default `params.learningSteps = [1, 10]` minutes. -/
def learningSteps : List ℚ := [1, 10]

/-- The default `params.relearningSteps = [1, 10]` minutes. -/
def relearningSteps : List ℚ := [1, 10]

/-- The default `params.graduatingInterval = 1` day. -/
def graduatingInterval : ℚ := 1

/-- The default `params.easyInterval = 4` days. -/
def easyInterval : ℚ := 4

/-- The default `params.graduationConsecutive = 5`. -/
def graduationConsecutive : ℕ := 5

/-- The default `params.graduationMinInterval = 16` days. -/
def graduationMinInterval : ℚ := 16

/-- The default `params.reactivationLapseThreshold = 2`. -/
def reactivationLapseThreshold : ℕ := 2

/-- Forgetting curve `retrievability(elapsedDays, stability)`:
`(1 + t/(9*S))^(-1)`, and `0` when `stability <= 0`. -/
noncomputable def retrievability (elapsedDays : ℚ) (stability : ℝ) : ℝ :=
  if stability ≤ 0 then 0 else (1 + (elapsedDays : ℝ) / (9 * stability))⁻¹

/-- Next interval `nextInterval(stability)`: `round(9*S*(1/retention - 1))`,
and `1` when `stability <= 0`; the source is only called with the default
retention `requestRetention`. -/
noncomputable def nextInterval (stability : ℝ) : ℤ :=
  if stability ≤ 0 then 1
  else round (9 * stability * (1 / ((requestRetention : ℚ) : ℝ) - 1))

/-- Initial stability `initStability(grade) = w[grade - 1]`. -/
def initStability (grade : Rating) : ℚ := wq (grade.val - 1)

/-- Initial difficulty `initDifficulty(grade) = clamp(w[4] - (grade-3)*w[5], 1, 10)`. -/
def initDifficulty (grade : Rating) : ℚ :=
  max 1 (min 10 (wq 4 - ((grade.val : ℚ) - 3) * wq 5))

/-- Stability after a successful review, `nextReviewStability(d, s, r, grade)`. -/
noncomputable def nextReviewStability (d : ℚ) (s : ℝ) (r : ℝ) (grade : Rating) : ℝ :=
  let hardPenalty : ℝ := if grade = Rating.Hard then ((wq 15 : ℚ) : ℝ) else 1
  let easyBonus : ℝ := if grade = Rating.Easy then ((wq 16 : ℚ) : ℝ) else 1
  let sinc := Real.exp ((wq 8 : ℚ) : ℝ) *
              (11 - (d : ℝ)) *
              s ^ (-((wq 9 : ℚ) : ℝ)) *
              (Real.exp (((wq 10 : ℚ) : ℝ) * (1 - r)) - 1) *
              hardPenalty *
              easyBonus
  s * (sinc + 1)

/-- Stability after forgetting, `nextForgetStability(d, s, r)`. -/
noncomputable def nextForgetStability (d : ℚ) (s : ℝ) (r : ℝ) : ℝ :=
  ((wq 11 : ℚ) : ℝ) *
  (d : ℝ) ^ (-((wq 12 : ℚ) : ℝ)) *
  ((s + 1) ^ ((wq 13 : ℚ) : ℝ) - 1) *
  Real.exp (((wq 14 : ℚ) : ℝ) * (1 - r))

/-- Difficulty update `nextDifficulty(d, grade)`, clamped to `[1, 10]`. -/
def nextDifficulty (d : ℚ) (grade : Rating) : ℚ :=
  let d0 := initDifficulty Rating.Good
  max 1 (min 10 (wq 7 * d0 + (1 - wq 7) * (d - wq 6 * ((grade.val : ℚ) - 3))))

/-- A scheduling card, mirroring the object built by `createCard`. -/
structure Card where
  id : String
  due : ℚ
  stability : ℝ
  difficulty : ℚ
  elapsed_days : ℚ
  scheduled_days : ℚ
  reps : ℕ
  lapses : ℕ
  state : CState
  last_review : Option ℚ
  learning_step : ℕ
  pos_pattern : String
  commonality : ℚ
  unit : ℕ
  error_history : List ErrorRec
  graduated : Bool
  graduation_date : Option ℚ
  consecutive_correct : ℕ

/-- The sentence data consumed by `createCard` (pos_pattern, commonality, unit). -/
structure SentenceData where
  pos_pattern : String
  commonality : ℚ
  unit : ℕ

/-- `createCard(id, sentenceData)`; `now` stands for `new Date()`. The
`|| 0.5` and `|| 1` fallbacks of the source fire exactly on the falsy
value `0`. -/
def createCard (id : String) (sd : SentenceData) (now : ℚ) : Card :=
  { id := id
    due := now
    stability := 0
    difficulty := 0
    elapsed_days := 0
    scheduled_days := 0
    reps := 0
    lapses := 0
    state := CState.New
    last_review := none
    learning_step := 0
    pos_pattern := sd.pos_pattern
    commonality := if sd.commonality = 0 then 0.5 else sd.commonality
    unit := if sd.unit = 0 then 1 else sd.unit
    error_history := []
    graduated := false
    graduation_date := none
    consecutive_correct := 0 }

/-- Drill metadata entry (`drillMeta[id] = {pattern_group, is_canonical}`). -/
structure Meta where
  pattern_group : Option String
  is_canonical : Bool
deriving DecidableEq

/-- Lookup by key in an association list, as a JS object property read. -/
def lookupKey {α : Type} (k : String) : List (String × α) → Option α
  | [] => none
  | p :: rest => if p.1 = k then some p.2 else lookupKey k rest

/-- Update the value stored at a key, preserving entry order, as an
in-place JS object property write. -/
def updateKey {α : Type} (l : List (String × α)) (k : String) (f : α → α) :
    List (String × α) :=
  l.map (fun p => if p.1 = k then (p.1, f p.2) else p)

/-- One step of a fold that updates the card stored under a sibling's id,
as in the reactivation loop. -/
def foldStep (f : Card → Card) (cs : List (String × Card)) (sib : Card) :
    List (String × Card) :=
  updateKey cs sib.id f

/-- The whole mutable scheduler state of the source module: the card map,
the drill metadata table, the session queue, the anti-repetition pattern
memo and the session counters. -/
structure SRSState where
  cards : List (String × Card)
  drillMeta : List (String × Meta)
  sessionQueue : List Card
  lastPattern : Option String
  statsReviewed : ℕ
  statsCorrect : ℕ
  statsIncorrect : ℕ

/-- JS string truthiness for optional pattern groups: `null` and the
empty string are falsy. -/
def truthy : Option String → Bool
  | none => false
  | some s => s ≠ ""

/-- `_getSiblingCards(patternGroup)`: all cards whose drill metadata has
the same pattern group; empty for a falsy group. -/
def getSiblingCards (s : SRSState) (pg : Option String) : List Card :=
  if truthy pg then
    (s.cards.filter (fun p =>
      match lookupKey p.1 s.drillMeta with
      | some m => m.pattern_group == pg
      | none => false)).map Prod.snd
  else []

/-- `_getGraduatedSiblings(patternGroup)`. -/
def getGraduatedSiblings (s : SRSState) (pg : Option String) : List Card :=
  (getSiblingCards s pg).filter (fun c => c.graduated)

/-- Error-history recording at the top of `processReview`: push the new
record, then drop the oldest while more than 10 are kept. -/
def recordError (eh : List ErrorRec) (errInfo : Option String) (now : ℚ) :
    List ErrorRec :=
  match errInfo with
  | none => eh
  | some t =>
    let l := eh ++ [⟨t, now⟩]
    if 10 < l.length then l.tail else l

/-- The state/grade branch of `processReview`: returns the updated card
together with `intervalMinutes` and `intervalDays` (the unused one is `0`,
exactly as in the source). -/
noncomputable def reviewStep (card : Card) (grade : Rating) (now : ℚ) :
    Card × ℚ × ℚ :=
  let elapsedDays := (now - card.last_review.getD now) / msPerDay
  if card.state = CState.New ∨ card.state = CState.Learning ∨
      card.state = CState.Relearning then
    let steps := if card.state = CState.Relearning then relearningSteps
                 else learningSteps
    if grade = Rating.Again then
      ({ card with
          learning_step := 0
          state := if card.state = CState.New then CState.Learning
                   else CState.Relearning },
       steps.getD 0 0, 0)
    else if grade = Rating.Easy then
      ({ card with
          state := CState.Review
          learning_step := 0
          stability := ((initStability grade : ℚ) : ℝ)
          difficulty := initDifficulty grade },
       0, easyInterval)
    else
      let step := card.learning_step + 1
      if steps.length ≤ step then
        ({ card with
            state := CState.Review
            learning_step := 0
            stability := ((initStability grade : ℚ) : ℝ)
            difficulty := initDifficulty grade },
         0, if grade = Rating.Hard then 1 else graduatingInterval)
      else
        ({ card with
            learning_step := step
            state := if card.state = CState.New then CState.Learning
                     else card.state },
         steps.getD step 0, 0)
  else
    let r := retrievability elapsedDays card.stability
    if grade = Rating.Again then
      ({ card with
          stability := nextForgetStability card.difficulty card.stability r
          lapses := card.lapses + 1
          state := CState.Relearning
          learning_step := 0 },
       relearningSteps.getD 0 0, 0)
    else
      let s2 := nextReviewStability card.difficulty card.stability r grade
      ({ card with
          stability := s2
          difficulty := nextDifficulty card.difficulty grade },
       0, min ((nextInterval s2 : ℤ) : ℚ) maximumInterval)

/-- The per-card part of `processReview`: error recording, the scheduling
branch, the next due date, and the bookkeeping fields; returns the updated
card together with the chosen interval in days. -/
noncomputable def reviewCard (card : Card) (grade : Rating)
    (errInfo : Option String) (now : ℚ) : Card × ℚ :=
  let elapsedDays := (now - card.last_review.getD now) / msPerDay
  let card1 := { card with error_history := recordError card.error_history errInfo now }
  let res := reviewStep card1 grade now
  let card2 := res.1
  let im := res.2.1
  let idays := res.2.2
  let due := if 0 < im then now + im * msPerMinute else now + idays * msPerDay
  let sched := if 0 < im then im / (60 * 24) else idays
  ({ card2 with
      scheduled_days := sched
      elapsed_days := elapsedDays
      reps := card2.reps + 1
      last_review := some now
      due := due
      consecutive_correct :=
        if 3 ≤ grade.val then card2.consecutive_correct + 1 else 0 },
   sched)

/-- The state mutation performed by the main body of `processReview` on a
known card: store the updated card, remember its pattern and bump the
session counters. -/
noncomputable def applyMain (s : SRSState) (cardId : String) (card : Card)
    (grade : Rating) (errInfo : Option String) (now : ℚ) : SRSState :=
  let card3 := (reviewCard card grade errInfo now).1
  { s with
      cards := updateKey s.cards cardId (fun _ => card3)
      lastPattern := some card3.pos_pattern
      statsReviewed := s.statsReviewed + 1
      statsCorrect := s.statsCorrect + (if 3 ≤ grade.val then 1 else 0)
      statsIncorrect := s.statsIncorrect + (if 3 ≤ grade.val then 0 else 1) }

/-- The canonical swap block of `_checkGraduation`: the reviewed card
graduates, loses canonical status, and the chosen graduated sibling
returns to review as the new canonical. -/
def gradSwap (s : SRSState) (cardId : String) (nc : Card) (now : ℚ) :
    SRSState :=
  { s with
      cards := updateKey
        (updateKey s.cards cardId (fun c =>
          { c with graduated := true, graduation_date := some now }))
        nc.id (fun c =>
          { c with
              graduated := false
              consecutive_correct := 0
              state := CState.Review
              due := now })
      drillMeta := updateKey
        (updateKey s.drillMeta cardId (fun m =>
          { m with is_canonical := false }))
        nc.id (fun m => { m with is_canonical := true }) }

/-- The non-canonical graduation block of `_checkGraduation`. -/
def gradRetire (s : SRSState) (cardId : String) (now : ℚ) : SRSState :=
  { s with
      cards := updateKey s.cards cardId (fun c =>
        { c with graduated := true, graduation_date := some now }) }

/-- `_checkGraduation(card, grade)`; `shuffle` stands for the
`Math.random` based `_shuffle`. -/
def checkGraduation (shuffle : List Card → List Card) (now : ℚ)
    (s : SRSState) (cardId : String) (grade : Rating) : SRSState :=
  if grade.val < 3 then s
  else
    match lookupKey cardId s.cards with
    | none => s
    | some card =>
      if card.graduated then s
      else
        match lookupKey cardId s.drillMeta with
        | none => s
        | some meta =>
          if graduationConsecutive ≤ card.consecutive_correct ∧
              graduationMinInterval ≤ card.scheduled_days then
            let siblings := getSiblingCards s meta.pattern_group
            let graduatedSiblings :=
              siblings.filter (fun c => c.graduated && c.id != cardId)
            let activeSiblings :=
              siblings.filter (fun c => !c.graduated && c.id != cardId)
            if meta.is_canonical then
              if graduatedSiblings.isEmpty then s
              else
                match (shuffle graduatedSiblings).head? with
                | none => s
                | some newCanonical => gradSwap s cardId newCanonical now
            else
              if activeSiblings.isEmpty then s
              else gradRetire s cardId now
          else s

/-- The reactivation applied to one graduated sibling in
`_checkReactivation`. -/
def reactivateCard (now : ℚ) (c : Card) : Card :=
  { c with
      graduated := false
      state := CState.Relearning
      consecutive_correct := 0
      learning_step := 0
      due := now }

/-- `_checkReactivation(cardId)`. -/
def checkReactivation (shuffle : List Card → List Card) (now : ℚ)
    (s : SRSState) (cardId : String) : SRSState :=
  match lookupKey cardId s.drillMeta with
  | none => s
  | some meta =>
    if !meta.is_canonical then s
    else if !truthy meta.pattern_group then s
    else
      match lookupKey cardId s.cards with
      | none => s
      | some card =>
        let thirtyDaysAgo := now - 30 * msPerDay
        let recentLapses :=
          (card.error_history.filter (fun e => thirtyDaysAgo < e.timestamp)).length
        if reactivationLapseThreshold ≤ recentLapses then
          let grads := getGraduatedSiblings s meta.pattern_group
          let toReactivate := (shuffle grads).take 3
          { s with
              cards := toReactivate.foldl (foldStep (reactivateCard now)) s.cards }
        else s

/-- The scheduling result returned by `processReview`. -/
structure ReviewResult where
  card : Card
  interval : ℚ
  nextDue : ℚ

/-- `processReview(cardId, grade, errorInfo)`; `now` stands for
`new Date()` and `shuffle` for the `Math.random` based `_shuffle`.
Returns the new module state and the result object (`none` mirrors the
`null` returned for an unknown card id). -/
noncomputable def processReview (shuffle : List Card → List Card)
    (s : SRSState) (cardId : String) (grade : Rating)
    (errInfo : Option String) (now : ℚ) : SRSState × Option ReviewResult :=
  match lookupKey cardId s.cards with
  | none => (s, none)
  | some card =>
    let card3 := (reviewCard card grade errInfo now).1
    let interval := (reviewCard card grade errInfo now).2
    let s1 := applyMain s cardId card grade errInfo now
    let s2 := checkGraduation shuffle now s1 cardId grade
    let s3 := if grade = Rating.Again then checkReactivation shuffle now s2 cardId
              else s2
    let finalCard := (lookupKey cardId s3.cards).getD card3
    (s3, some { card := finalCard, interval := interval, nextDue := finalCard.due })

/-- `getDueCards()`: all non-graduated cards that are due or New, in card
map order. -/
def getDueCards (s : SRSState) (now : ℚ) : List Card :=
  (s.cards.filter (fun p =>
    !p.2.graduated && (p.2.due ≤ now || p.2.state == CState.New))).map Prod.snd

/-- The comparator of `buildSessionQueue` as a Boolean precedence: New
cards first, New cards by descending commonality, others by ascending due
date. -/
def queueLE (a b : Card) : Bool :=
  if a.state = CState.New ∧ b.state ≠ CState.New then true
  else if b.state = CState.New ∧ a.state ≠ CState.New then false
  else if a.state = CState.New ∧ b.state = CState.New then
    b.commonality ≤ a.commonality
  else a.due ≤ b.due

/-- `buildSessionQueue(maxCards)`: sort the due cards and keep the first
`maxCards` of them as the session queue. -/
def buildSessionQueue (s : SRSState) (maxCards : ℕ) (now : ℚ) : SRSState :=
  let due := getDueCards s now
  { s with sessionQueue := (due.mergeSort queueLE).take maxCards }

/-- The default queue size used when `buildSessionQueue` is called with no
argument, as in `getNextCard`. -/
def defaultMaxCards : ℕ := 20

/-- `getNextCard()`: rebuild an empty queue, rotate the first card whose
pattern differs from `lastPattern` to the front, then pop the front. -/
def getNextCard (s : SRSState) (now : ℚ) : SRSState × Option Card :=
  let s1 := if s.sessionQueue.isEmpty then buildSessionQueue s defaultMaxCards now
            else s
  if s1.sessionQueue.isEmpty then (s1, none)
  else
    let q :=
      match s1.lastPattern with
      | none => s1.sessionQueue
      | some p =>
        if p = "" then s1.sessionQueue
        else
          match s1.sessionQueue.findIdx? (fun c => c.pos_pattern != p) with
          | none => s1.sessionQueue
          | some idx =>
            if 0 < idx then
              match s1.sessionQueue[idx]? with
              | some c => c :: s1.sessionQueue.eraseIdx idx
              | none => s1.sessionQueue
            else s1.sessionQueue
    match q with
    | [] => (s1, none)
    | c :: rest => ({ s1 with sessionQueue := rest }, some c)

/-- `resetCard(cardId)`: replace an existing card by a fresh one that
keeps only `pos_pattern`, `commonality` and `unit`; no-op for an unknown
id. -/
def resetCard (s : SRSState) (cardId : String) (now : ℚ) : SRSState :=
  match lookupKey cardId s.cards with
  | none => s
  | some oldData =>
    { s with
        cards := updateKey s.cards cardId (fun _ =>
          createCard cardId
            ⟨oldData.pos_pattern, oldData.commonality, oldData.unit⟩ now) }

/-- One review event of a replayed session: the randomness used by that
call, the addressed card, the grade, the optional error type and the
wall-clock time of the call. -/
structure Rev where
  shuffle : List Card → List Card
  cardId : String
  grade : Rating
  errInfo : Option String
  now : ℚ

/-- Replay a sequence of `processReview` calls. -/
noncomputable def applyReviews (s : SRSState) (revs : List Rev) : SRSState :=
  revs.foldl (fun st r => (processReview r.shuffle st r.cardId r.grade r.errInfo r.now).1) s

/-- Well-formedness of the module state: the card map and the metadata
table have no duplicate keys (they model JS objects) and every card
records its own key in its `id` field (as `createCard` guarantees). -/
def WF (s : SRSState) : Prop :=
  (s.cards.map Prod.fst).Nodup ∧ (∀ p ∈ s.cards, p.2.id = p.1) ∧
  (s.drillMeta.map Prod.fst).Nodup

/-- Key `k` carries drill metadata placing it in pattern group `g`. -/
def inGroupK (s : SRSState) (k : String) (g : String) : Prop :=
  ∃ m, lookupKey k s.drillMeta = some m ∧ m.pattern_group = some g

/-- Key `k` is the canonical representative of group `g`. -/
def canonAt (s : SRSState) (g : String) (k : String) : Prop :=
  ∃ m, lookupKey k s.drillMeta = some m ∧ m.pattern_group = some g ∧
    m.is_canonical = true

/-- Pattern group `g` has exactly one canonical member. -/
def canonUnique (s : SRSState) (g : String) : Prop :=
  ∃! k, canonAt s g k

/-- Pattern group `g` has at least one active (non-graduated) member
card. -/
def groupActive (s : SRSState) (g : String) : Prop :=
  ∃ k c, inGroupK s k g ∧ lookupKey k s.cards = some c ∧ c.graduated = false

/-- The member cards of pattern group `g`. -/
def groupCards (s : SRSState) (g : String) : List Card :=
  (s.cards.filter (fun p =>
    match lookupKey p.1 s.drillMeta with
    | some m => m.pattern_group == some g
    | none => false)).map Prod.snd

/-- Difficulty values reachable in this engine: `0` until a difficulty is
first assigned, and a clamped value within `[1, 10]` afterwards. -/
def diffOK (d : ℚ) : Prop := d = 0 ∨ (1 ≤ d ∧ d ≤ 10)

/-- A plain freshly-created card used to build concrete test states. -/
def baseCard (id : String) : Card :=
  { id := id
    due := 0
    stability := 0
    difficulty := 0
    elapsed_days := 0
    scheduled_days := 0
    reps := 0
    lapses := 0
    state := CState.New
    last_review := none
    learning_step := 0
    pos_pattern := "p"
    commonality := 1/2
    unit := 1
    error_history := []
    graduated := false
    graduation_date := none
    consecutive_correct := 0 }

/-- A state with an empty card map, used to build concrete test states. -/
def emptyState : SRSState :=
  { cards := []
    drillMeta := []
    sessionQueue := []
    lastPattern := none
    statsReviewed := 0
    statsCorrect := 0
    statsIncorrect := 0 }

/-- Test state: pattern group `g` with an active canonical `a` and a
graduated variant `b`. -/
def c1State : SRSState :=
  { emptyState with
      cards := [("a", baseCard "a"),
                ("b", { baseCard "b" with graduated := true, state := CState.Review })]
      drillMeta := [("a", ⟨some "g", true⟩), ("b", ⟨some "g", false⟩)] }

/-- Test review event: grade `Good` on card `a` with identity randomness. -/
def c1Rev : Rev := ⟨fun l => l, "a", Rating.Good, none, 0⟩

/-- Test state: a single New card `a`. -/
def c2State : SRSState := { emptyState with cards := [("a", baseCard "a")] }

/-- Test state: one overdue Review card and two New cards of different
commonality. -/
def c3State : SRSState :=
  { emptyState with cards :=
      [("r", { baseCard "r" with state := CState.Review, due := -5 }),
       ("n1", { baseCard "n1" with commonality := 0.8 }),
       ("n2", { baseCard "n2" with commonality := 0.3 })] }

/-- Test card: a Learning card whose due timestamp lies in the future. -/
def c5Card : Card :=
  { baseCard "a" with
      state := CState.Learning
      due := 600000
      last_review := some 0 }

/-- Test state holding only `c5Card`. -/
def c5State : SRSState := { emptyState with cards := [("a", c5Card)] }

/-- Test card: an active canonical with two recent errors. -/
def c6CardA : Card :=
  { baseCard "a" with
      state := CState.Review
      last_review := some 0
      error_history := [⟨"grammar", -100⟩, ⟨"grammar", -200⟩] }

/-- Test card: a graduated sibling variant `b`. -/
def c6CardB : Card :=
  { baseCard "b" with graduated := true, state := CState.Review }

/-- Test card: a graduated sibling variant `c`. -/
def c6CardC : Card :=
  { baseCard "c" with graduated := true, state := CState.Review }

/-- Test state: the active canonical `a` with two recent errors and two
graduated siblings `b` and `c`. -/
def c6State : SRSState :=
  { emptyState with
      cards := [("a", c6CardA), ("b", c6CardB), ("c", c6CardC)]
      drillMeta := [("a", ⟨some "g", true⟩), ("b", ⟨some "g", false⟩),
                    ("c", ⟨some "g", false⟩)] }

/-- Test card: a graduated canonical with two recent errors. -/
def c7CardA : Card :=
  { baseCard "a" with
      graduated := true
      state := CState.Learning
      error_history := [⟨"grammar", -100⟩, ⟨"grammar", -200⟩] }

/-- Test state: the graduated canonical card `a` alone in its pattern
group. -/
def c7State : SRSState :=
  { emptyState with
      cards := [("a", c7CardA)]
      drillMeta := [("a", ⟨some "g", true⟩)] }

/-- Test state: a two-card session queue whose front card repeats the
previously drawn pattern. -/
def c8State : SRSState :=
  { emptyState with
      sessionQueue := [{ baseCard "x" with pos_pattern := "p" },
                       { baseCard "y" with pos_pattern := "q" }]
      lastPattern := some "p" }

end FsiSrs

namespace FsiSrs

theorem lookupKey_updateKey {α : Type} (l : List (String × α)) (j k : String)
    (f : α → α) :
    lookupKey k (updateKey l j f) =
      if j = k then (lookupKey k l).map f else lookupKey k l := by
  induction l with
  | nil => by_cases hjk : j = k <;> simp [lookupKey, updateKey, hjk]
  | cons p rest ih =>
    simp only [updateKey, List.map_cons] at ih ⊢
    by_cases hp : p.1 = j
    · by_cases hjk : j = k
      · subst hjk
        simp [lookupKey, hp]
      · have hpk : ¬p.1 = k := fun he => hjk (hp.symm.trans he)
        have hjkne : ¬j = k := hjk
        simp [lookupKey, hp, hpk, hjkne] at ih ⊢
        exact ih
    · by_cases hk : p.1 = k
      · by_cases hjk : j = k
        · exact absurd (hk.trans hjk.symm) hp
        · simp only [if_neg hp, lookupKey, if_pos hk, if_neg hjk]
      · simp only [lookupKey, if_neg hp, if_neg hk] at ih ⊢
        exact ih

theorem map_fst_updateKey {α : Type} (l : List (String × α)) (j : String)
    (f : α → α) :
    (updateKey l j f).map Prod.fst = l.map Prod.fst := by
  induction l with
  | nil => rfl
  | cons p rest ih =>
    simp only [updateKey, List.map_cons] at *
    by_cases hp : p.1 = j <;> simp [hp, ih]

theorem mem_of_lookupKey_eq_some {α : Type} {l : List (String × α)}
    {k : String} {v : α} (h : lookupKey k l = some v) : (k, v) ∈ l := by
  induction l with
  | nil => simp [lookupKey] at h
  | cons p rest ih =>
    simp only [lookupKey] at h
    by_cases hp : p.1 = k
    · rw [if_pos hp] at h
      obtain ⟨p1, p2⟩ := p
      simp only at hp
      injection h with h2
      subst hp
      subst h2
      exact List.mem_cons_self _ _
    · rw [if_neg hp] at h
      exact List.mem_cons_of_mem _ (ih h)

theorem lookupKey_eq_some_of_mem {α : Type} {l : List (String × α)}
    {k : String} {v : α} (hnd : (l.map Prod.fst).Nodup) (h : (k, v) ∈ l) :
    lookupKey k l = some v := by
  induction l with
  | nil => simp at h
  | cons p rest ih =>
    simp only [List.map_cons, List.nodup_cons] at hnd
    rcases List.mem_cons.mp h with h1 | h1
    · subst h1; simp [lookupKey]
    · have hk : p.1 ≠ k := by
        intro he
        exact hnd.1 (he ▸ (List.mem_map.mpr ⟨(k, v), h1, rfl⟩))
      simp [lookupKey, hk, ih hnd.2 h1]

theorem keys_mem_of_lookupKey_eq_some {α : Type} {l : List (String × α)}
    {k : String} {v : α} (h : lookupKey k l = some v) :
    k ∈ l.map Prod.fst :=
  List.mem_map.mpr ⟨(k, v), mem_of_lookupKey_eq_some h, rfl⟩

theorem mem_updateKey_of_mem_ne {α : Type} {l : List (String × α)}
    {p : String × α} (j : String) (f : α → α) (h : p ∈ l) (hne : p.1 ≠ j) :
    p ∈ updateKey l j f := by
  unfold updateKey
  refine List.mem_map.mpr ⟨p, h, ?_⟩
  simp [hne]

theorem mem_updateKey_provenance {α : Type} {l : List (String × α)}
    {q : String × α} {j : String} {f : α → α} (h : q ∈ updateKey l j f) :
    ∃ p ∈ l, q.1 = p.1 ∧ (q.2 = p.2 ∨ (p.1 = j ∧ q.2 = f p.2)) := by
  unfold updateKey at h
  rcases List.mem_map.mp h with ⟨p, hp, he⟩
  by_cases hj : p.1 = j
  · rw [if_pos hj] at he
    exact ⟨p, hp, by subst he; simp [hj]⟩
  · rw [if_neg hj] at he
    exact ⟨p, hp, by subst he; simp⟩

theorem lookupKey_updateKey_map_eq {α β : Type} (l : List (String × α))
    (j k : String) (f : α → α) (g : α → β) (hg : ∀ v, g (f v) = g v) :
    (lookupKey k (updateKey l j f)).map g = (lookupKey k l).map g := by
  rw [lookupKey_updateKey]
  by_cases hjk : j = k
  · rw [if_pos hjk]
    cases lookupKey k l <;> simp [hg]
  · rw [if_neg hjk]

theorem map_fst_foldStep (f : Card → Card) (R : List Card)
    (cs : List (String × Card)) :
    ((R.foldl (foldStep f) cs).map Prod.fst) = cs.map Prod.fst := by
  induction R generalizing cs with
  | nil => rfl
  | cons a R ih => simp [List.foldl_cons, ih, foldStep, map_fst_updateKey]

theorem lookupKey_foldStep_map_eq {β : Type} (f : Card → Card) (g : Card → β)
    (hg : ∀ v, g (f v) = g v) (R : List Card) (cs : List (String × Card))
    (k : String) :
    (lookupKey k (R.foldl (foldStep f) cs)).map g = (lookupKey k cs).map g := by
  induction R generalizing cs with
  | nil => rfl
  | cons a R ih =>
    simp only [List.foldl_cons]
    rw [ih, foldStep, lookupKey_updateKey_map_eq _ _ _ _ _ hg]

theorem lookupKey_foldStep_pres {P : Card → Prop} {f : Card → Card}
    (hf : ∀ v, P (f v)) (R : List Card) (cs : List (String × Card))
    (k : String) (v : Card) (hv : lookupKey k cs = some v) (hP : P v) :
    ∃ v2, lookupKey k (R.foldl (foldStep f) cs) = some v2 ∧ P v2 := by
  induction R generalizing cs v with
  | nil => exact ⟨v, hv, hP⟩
  | cons a R ih =>
    simp only [List.foldl_cons]
    by_cases ha : a.id = k
    · exact ih (updateKey cs a.id f) (f v)
        (by rw [lookupKey_updateKey, if_pos ha, hv]; rfl) (hf v)
    · exact ih (updateKey cs a.id f) v
        (by rw [lookupKey_updateKey, if_neg ha]; exact hv) hP

theorem lookupKey_foldStep_hit {P : Card → Prop} {f : Card → Card}
    (hf : ∀ v, P (f v)) (c : Card) :
    ∀ R : List Card, c ∈ R → ∀ (cs : List (String × Card)) (v : Card),
      lookupKey c.id cs = some v →
      ∃ v2, lookupKey c.id (R.foldl (foldStep f) cs) = some v2 ∧ P v2 := by
  intro R
  induction R with
  | nil => intro hc; cases hc
  | cons a R ih =>
    intro hc cs v hv
    simp only [List.foldl_cons]
    rcases List.mem_cons.mp hc with h1 | h1
    · subst h1
      exact lookupKey_foldStep_pres hf R _ c.id (f v)
        (by show lookupKey c.id (updateKey cs c.id f) = _
            rw [lookupKey_updateKey, if_pos rfl, hv]; rfl) (hf v)
    · by_cases ha : a.id = c.id
      · exact ih h1 _ (f v)
          (by show lookupKey c.id (updateKey cs a.id f) = _
              rw [lookupKey_updateKey, if_pos ha, hv]; rfl)
      · exact ih h1 _ v
          (by show lookupKey c.id (updateKey cs a.id f) = _
              rw [lookupKey_updateKey, if_neg ha]; exact hv)

theorem ids_updateKey {cs : List (String × Card)} {j : String}
    {f : Card → Card} (hf : ∀ v, (f v).id = v.id)
    (hids : ∀ p ∈ cs, p.2.id = p.1) :
    ∀ p ∈ updateKey cs j f, p.2.id = p.1 := by
  intro p hp
  rcases mem_updateKey_provenance hp with ⟨q, hq, h1, h2 | h2⟩
  · rw [h1, h2]; exact hids q hq
  · rw [h1, h2.2, hf]; exact hids q hq

theorem reviewCard_graduated (card : Card) (grade : Rating)
    (errInfo : Option String) (now : ℚ) :
    ((reviewCard card grade errInfo now).1).graduated = card.graduated := by
  simp only [reviewCard, reviewStep]
  split_ifs <;> rfl

theorem reviewCard_graduation_date (card : Card) (grade : Rating)
    (errInfo : Option String) (now : ℚ) :
    ((reviewCard card grade errInfo now).1).graduation_date =
      card.graduation_date := by
  simp only [reviewCard, reviewStep]
  split_ifs <;> rfl

theorem reviewCard_id (card : Card) (grade : Rating)
    (errInfo : Option String) (now : ℚ) :
    ((reviewCard card grade errInfo now).1).id = card.id := by
  simp only [reviewCard, reviewStep]
  split_ifs <;> rfl

theorem reviewCard_pos_pattern (card : Card) (grade : Rating)
    (errInfo : Option String) (now : ℚ) :
    ((reviewCard card grade errInfo now).1).pos_pattern = card.pos_pattern := by
  simp only [reviewCard, reviewStep]
  split_ifs <;> rfl

theorem reviewCard_error_history (card : Card) (grade : Rating)
    (errInfo : Option String) (now : ℚ) :
    ((reviewCard card grade errInfo now).1).error_history =
      recordError card.error_history errInfo now := by
  simp only [reviewCard, reviewStep]
  split_ifs <;> rfl

theorem reviewCard_difficulty_cases (card : Card) (grade : Rating)
    (errInfo : Option String) (now : ℚ) :
    ((reviewCard card grade errInfo now).1).difficulty = card.difficulty ∨
    ((reviewCard card grade errInfo now).1).difficulty = initDifficulty grade ∨
    ((reviewCard card grade errInfo now).1).difficulty =
      nextDifficulty card.difficulty grade := by
  simp only [reviewCard, reviewStep]
  split_ifs <;> simp

theorem nextInterval_nonneg (s : ℝ) : 0 ≤ nextInterval s := by
  unfold nextInterval
  split_ifs with h
  · norm_num
  · push_neg at h
    have h1 : (0:ℝ) ≤ 1 / ((requestRetention : ℚ) : ℝ) - 1 := by
      norm_num [requestRetention]
    have harg : (0:ℝ) ≤ 9 * s * (1 / ((requestRetention : ℚ) : ℝ) - 1) :=
      mul_nonneg (mul_nonneg (by norm_num) h.le) h1
    rw [round_eq]
    exact Int.floor_nonneg.mpr (by linarith)

theorem steps_getD_nonneg (l : List ℚ) (h : ∀ x ∈ l, 0 ≤ x) (i : ℕ) :
    0 ≤ l.getD i 0 := by
  induction l generalizing i with
  | nil => simp [List.getD]
  | cons a l ih =>
    cases i with
    | zero => simpa using h a (List.mem_cons_self _ _)
    | succ n =>
      simp only [List.getD_cons_succ]
      exact ih (fun x hx => h x (List.mem_cons_of_mem _ hx)) n

set_option maxHeartbeats 1000000 in
theorem reviewStep_nonneg (card : Card) (grade : Rating) (now : ℚ) :
    0 ≤ (reviewStep card grade now).2.1 ∧
    0 ≤ (reviewStep card grade now).2.2 := by
  have h10 : ∀ i : ℕ, (0:ℚ) ≤ ([1, 10] : List ℚ).getD i 0 := by
    intro i
    apply steps_getD_nonneg
    intro x hx
    simp only [List.mem_cons, List.not_mem_nil, or_false] at hx
    rcases hx with rfl | rfl <;> norm_num
  have hmin : (0:ℚ) ≤ min ((nextInterval
      (nextReviewStability card.difficulty card.stability
        (retrievability ((now - card.last_review.getD now) / msPerDay)
          card.stability) grade) : ℤ) : ℚ) maximumInterval := by
    refine le_min ?_ (by norm_num [maximumInterval])
    exact_mod_cast nextInterval_nonneg _
  simp only [reviewStep, learningSteps, relearningSteps, ite_self]
  split_ifs <;>
    refine ⟨?_, ?_⟩ <;>
    first
      | exact h10 _
      | exact hmin
      | norm_num [graduatingInterval, easyInterval]

theorem reviewCard_due_ge (card : Card) (grade : Rating)
    (errInfo : Option String) (now : ℚ) :
    now ≤ ((reviewCard card grade errInfo now).1).due := by
  have h := reviewStep_nonneg
    { card with error_history := recordError card.error_history errInfo now }
    grade now
  simp only [reviewCard]
  split_ifs with him
  · have h2 : (0:ℚ) ≤ (reviewStep { card with
        error_history := recordError card.error_history errInfo now }
        grade now).2.1 * msPerMinute :=
      mul_nonneg h.1 (by norm_num [msPerMinute])
    linarith
  · have h2 : (0:ℚ) ≤ (reviewStep { card with
        error_history := recordError card.error_history errInfo now }
        grade now).2.2 * msPerDay :=
      mul_nonneg h.2 (by norm_num [msPerDay])
    linarith

theorem ids_foldStep {f : Card → Card} (hf : ∀ v, (f v).id = v.id)
    (R : List Card) (cs : List (String × Card))
    (hids : ∀ p ∈ cs, p.2.id = p.1) :
    ∀ p ∈ R.foldl (foldStep f) cs, p.2.id = p.1 := by
  induction R generalizing cs with
  | nil => exact hids
  | cons a R ih =>
    exact ih (updateKey cs a.id f) (ids_updateKey hf hids)

theorem checkGraduation_shape (shuffle : List Card → List Card) (now : ℚ)
    (s : SRSState) (cardId : String) (grade : Rating) :
    checkGraduation shuffle now s cardId grade = s ∨
    (∃ card meta nc,
      lookupKey cardId s.cards = some card ∧ card.graduated = false ∧
      lookupKey cardId s.drillMeta = some meta ∧ meta.is_canonical = true ∧
      (shuffle ((getSiblingCards s meta.pattern_group).filter
        (fun c => c.graduated && c.id != cardId))).head? = some nc ∧
      checkGraduation shuffle now s cardId grade = gradSwap s cardId nc now) ∨
    (∃ card meta,
      lookupKey cardId s.cards = some card ∧ card.graduated = false ∧
      lookupKey cardId s.drillMeta = some meta ∧ meta.is_canonical = false ∧
      ((getSiblingCards s meta.pattern_group).filter
        (fun c => !c.graduated && c.id != cardId)) ≠ [] ∧
      checkGraduation shuffle now s cardId grade = gradRetire s cardId now) := by
  unfold checkGraduation
  by_cases hgr : grade.val < 3
  · rw [if_pos hgr]; left; rfl
  rw [if_neg hgr]
  rcases hc : lookupKey cardId s.cards with _ | card
  · left; rfl
  dsimp only
  by_cases hg2 : card.graduated = true
  · rw [if_pos hg2]; left; rfl
  rw [if_neg hg2]
  rcases hm : lookupKey cardId s.drillMeta with _ | meta
  · left; rfl
  dsimp only
  by_cases hth : graduationConsecutive ≤ card.consecutive_correct ∧
      graduationMinInterval ≤ card.scheduled_days
  swap
  · rw [if_neg hth]; left; rfl
  rw [if_pos hth]
  by_cases hcan : meta.is_canonical = true
  · rw [if_pos hcan]
    by_cases hge : ((getSiblingCards s meta.pattern_group).filter
        (fun c => c.graduated && c.id != cardId)).isEmpty = true
    · rw [if_pos hge]; left; rfl
    rw [if_neg hge]
    rcases hh : (shuffle ((getSiblingCards s meta.pattern_group).filter
        (fun c => c.graduated && c.id != cardId))).head? with _ | nc
    · left; rfl
    right; left
    exact ⟨card, meta, nc, rfl, Bool.not_eq_true _ ▸ hg2, rfl, hcan, hh, rfl⟩
  · rw [if_neg hcan]
    by_cases hae : ((getSiblingCards s meta.pattern_group).filter
        (fun c => !c.graduated && c.id != cardId)).isEmpty = true
    · rw [if_pos hae]; left; rfl
    rw [if_neg hae]
    right; right
    refine ⟨card, meta, rfl, Bool.not_eq_true _ ▸ hg2, rfl,
      Bool.not_eq_true _ ▸ hcan, ?_, rfl⟩
    intro hnil
    rw [hnil] at hae
    exact hae rfl

theorem checkReactivation_shape (shuffle : List Card → List Card) (now : ℚ)
    (s : SRSState) (cardId : String) :
    checkReactivation shuffle now s cardId = s ∨
    (∃ meta card,
      lookupKey cardId s.drillMeta = some meta ∧ meta.is_canonical = true ∧
      truthy meta.pattern_group = true ∧
      lookupKey cardId s.cards = some card ∧
      reactivationLapseThreshold ≤ (card.error_history.filter
        (fun e => now - 30 * msPerDay < e.timestamp)).length ∧
      checkReactivation shuffle now s cardId =
        { s with
            cards := List.foldl (foldStep (reactivateCard now)) s.cards
              ((shuffle (getGraduatedSiblings s meta.pattern_group)).take 3) }) := by
  unfold checkReactivation
  rcases hm : lookupKey cardId s.drillMeta with _ | meta
  · left; rfl
  dsimp only
  by_cases hcan : meta.is_canonical = true
  swap
  · rw [if_pos (by simp [hcan])]; left; rfl
  rw [if_neg (by simp [hcan])]
  by_cases ht : truthy meta.pattern_group = true
  swap
  · rw [if_pos (by simp [ht])]; left; rfl
  rw [if_neg (by simp [ht])]
  rcases hc : lookupKey cardId s.cards with _ | card
  · left; rfl
  dsimp only
  by_cases hl : reactivationLapseThreshold ≤ (card.error_history.filter
      (fun e => now - 30 * msPerDay < e.timestamp)).length
  · rw [if_pos hl]
    right
    exact ⟨meta, card, rfl, hcan, ht, rfl, hl, rfl⟩
  · rw [if_neg hl]; left; rfl

theorem mem_getSiblingCards {s : SRSState} {pg : Option String} {c : Card}
    (hwf : WF s) (h : c ∈ getSiblingCards s pg) :
    lookupKey c.id s.cards = some c ∧
    (∃ m, lookupKey c.id s.drillMeta = some m ∧ m.pattern_group = pg) ∧
    truthy pg = true := by
  unfold getSiblingCards at h
  by_cases ht : truthy pg
  · rw [if_pos ht] at h
    rcases List.mem_map.mp h with ⟨p, hp, he⟩
    have hpf := List.mem_filter.mp hp
    have hmem : p ∈ s.cards := hpf.1
    have hcond := hpf.2
    rcases hl : lookupKey p.1 s.drillMeta with _ | m
    · rw [hl] at hcond
      simp at hcond
    · rw [hl] at hcond
      simp only [beq_iff_eq] at hcond
      have hid : p.2.id = p.1 := hwf.2.1 p hmem
      have hme : (p.1, p.2) ∈ s.cards := by
        rcases p with ⟨p1, p2⟩; exact hmem
      subst he
      rw [hid]
      exact ⟨lookupKey_eq_some_of_mem hwf.1 hme, ⟨m, hl, hcond⟩, ht⟩
  · rw [if_neg ht] at h
    cases h

theorem applyMain_inv (s : SRSState) (cardId : String) (card : Card)
    (grade : Rating) (errInfo : Option String) (now : ℚ)
    (hwf : WF s) (hc : lookupKey cardId s.cards = some card) :
    WF (applyMain s cardId card grade errInfo now) ∧
    ∀ g, (groupActive s g → groupActive (applyMain s cardId card grade errInfo now) g) ∧
      (canonUnique s g → canonUnique (applyMain s cardId card grade errInfo now) g) := by
  have hcid : card.id = cardId := hwf.2.1 _ (mem_of_lookupKey_eq_some hc)
  have hcards : (applyMain s cardId card grade errInfo now).cards =
      updateKey s.cards cardId (fun _ => (reviewCard card grade errInfo now).1) := rfl
  constructor
  · refine ⟨?_, ?_, hwf.2.2⟩
    · rw [hcards, map_fst_updateKey]; exact hwf.1
    · intro p hp
      rw [hcards] at hp
      rcases mem_updateKey_provenance hp with ⟨q, hq, h1, h2 | h2⟩
      · rw [h1, h2]; exact hwf.2.1 q hq
      · rw [h1, h2.2, reviewCard_id, hcid, h2.1]
  · intro g
    constructor
    · rintro ⟨k, c, hg, hkc, hgrad⟩
      by_cases hk : cardId = k
      · subst hk
        rw [hc] at hkc
        injection hkc with hkc
        subst hkc
        refine ⟨cardId, (reviewCard card grade errInfo now).1, hg, ?_, ?_⟩
        · rw [hcards, lookupKey_updateKey, if_pos rfl, hc]; rfl
        · rw [reviewCard_graduated]; exact hgrad
      · refine ⟨k, c, hg, ?_, hgrad⟩
        rw [hcards, lookupKey_updateKey, if_neg hk]; exact hkc
    · exact fun h => h

theorem gradRetire_inv (s : SRSState) (cardId : String) (now : ℚ)
    (meta : Meta) (csib : Card)
    (hwf : WF s)
    (hm : lookupKey cardId s.drillMeta = some meta)
    (hsib : csib ∈ getSiblingCards s meta.pattern_group)
    (hsga : csib.graduated = false) (hsne : csib.id ≠ cardId) :
    WF (gradRetire s cardId now) ∧
    ∀ g, (groupActive s g → groupActive (gradRetire s cardId now) g) ∧
      (canonUnique s g → canonUnique (gradRetire s cardId now) g) := by
  obtain ⟨hsc, ⟨msib, hsm, hsmg⟩, htr⟩ := mem_getSiblingCards hwf hsib
  have hcards : (gradRetire s cardId now).cards =
      updateKey s.cards cardId (fun c =>
        { c with graduated := true, graduation_date := some now }) := rfl
  constructor
  · refine ⟨?_, ?_, hwf.2.2⟩
    · rw [hcards, map_fst_updateKey]; exact hwf.1
    · rw [hcards]
      exact ids_updateKey (fun v => rfl) hwf.2.1
  · intro g
    constructor
    · rintro ⟨k, c, ⟨mk, hkm, hkg⟩, hkc, hgrad⟩
      by_cases hk : cardId = k
      · subst hk
        rw [hm] at hkm
        injection hkm with hkm
        subst hkm
        refine ⟨csib.id, csib, ⟨msib, hsm, by rw [hsmg, hkg]⟩, ?_, hsga⟩
        rw [hcards, lookupKey_updateKey, if_neg (fun he => hsne he.symm)]
        exact hsc
      · refine ⟨k, c, ⟨mk, hkm, hkg⟩, ?_, hgrad⟩
        rw [hcards, lookupKey_updateKey, if_neg hk]; exact hkc
    · exact fun h => h

theorem gradSwap_inv (s : SRSState) (cardId : String) (now : ℚ)
    (meta : Meta) (nc : Card) (gstr : String)
    (hwf : WF s)
    (hm : lookupKey cardId s.drillMeta = some meta)
    (hcanon : meta.is_canonical = true)
    (hmg : meta.pattern_group = some gstr)
    (hnsib : nc ∈ getSiblingCards s meta.pattern_group)
    (hne : nc.id ≠ cardId) :
    WF (gradSwap s cardId nc now) ∧
    ∀ g, (groupActive s g → groupActive (gradSwap s cardId nc now) g) ∧
      (canonUnique s g → canonUnique (gradSwap s cardId nc now) g) := by
  obtain ⟨hnc, ⟨mn, hmn, hmng⟩, htr⟩ := mem_getSiblingCards hwf hnsib
  rw [hmg] at hmng
  have hnec : ¬cardId = nc.id := fun he => hne he.symm
  have hcards : (gradSwap s cardId nc now).cards =
      updateKey (updateKey s.cards cardId (fun c =>
        { c with graduated := true, graduation_date := some now }))
      nc.id (fun c =>
        { c with
            graduated := false
            consecutive_correct := 0
            state := CState.Review
            due := now }) := rfl
  have hdm : (gradSwap s cardId nc now).drillMeta =
      updateKey (updateKey s.drillMeta cardId (fun m =>
        { m with is_canonical := false }))
      nc.id (fun m => { m with is_canonical := true }) := rfl
  have hLcn : lookupKey nc.id (gradSwap s cardId nc now).cards = some
      { nc with
          graduated := false
          consecutive_correct := 0
          state := CState.Review
          due := now } := by
    rw [hcards, lookupKey_updateKey, if_pos rfl, lookupKey_updateKey,
      if_neg hnec, hnc]
    rfl
  have hLck : ∀ k, ¬nc.id = k → ¬cardId = k →
      lookupKey k (gradSwap s cardId nc now).cards = lookupKey k s.cards := by
    intro k h1 h2
    rw [hcards, lookupKey_updateKey, if_neg h1, lookupKey_updateKey, if_neg h2]
  have hLmn : lookupKey nc.id (gradSwap s cardId nc now).drillMeta =
      some { mn with is_canonical := true } := by
    rw [hdm, lookupKey_updateKey, if_pos rfl, lookupKey_updateKey,
      if_neg hnec, hmn]
    rfl
  have hLmc : lookupKey cardId (gradSwap s cardId nc now).drillMeta =
      some { meta with is_canonical := false } := by
    rw [hdm, lookupKey_updateKey, if_neg hne, lookupKey_updateKey,
      if_pos rfl, hm]
    rfl
  have hLmk : ∀ k, ¬nc.id = k → ¬cardId = k →
      lookupKey k (gradSwap s cardId nc now).drillMeta =
        lookupKey k s.drillMeta := by
    intro k h1 h2
    rw [hdm, lookupKey_updateKey, if_neg h1, lookupKey_updateKey, if_neg h2]
  refine ⟨⟨?_, ?_, ?_⟩, ?_⟩
  · rw [hcards, map_fst_updateKey, map_fst_updateKey]; exact hwf.1
  · rw [hcards]
    exact ids_updateKey (fun v => rfl) (ids_updateKey (fun v => rfl) hwf.2.1)
  · rw [hdm, map_fst_updateKey, map_fst_updateKey]; exact hwf.2.2
  intro g
  constructor
  · rintro ⟨k, c, ⟨mk, hkm, hkg⟩, hkc, hgrad⟩
    by_cases hkn : k = nc.id
    · subst hkn
      rw [hmn] at hkm
      injection hkm with hkm
      subst hkm
      exact ⟨nc.id, _, ⟨{ mn with is_canonical := true }, hLmn, hkg⟩, hLcn, rfl⟩
    · by_cases hkc2 : k = cardId
      · subst hkc2
        rw [hm] at hkm
        injection hkm with hkm
        subst hkm
        rw [hmg] at hkg
        injection hkg with hkg
        refine ⟨nc.id, _, ⟨{ mn with is_canonical := true }, hLmn, ?_⟩, hLcn, rfl⟩
        show mn.pattern_group = some g
        rw [hmng, hkg]
      · refine ⟨k, c, ⟨mk, ?_, hkg⟩, ?_, hgrad⟩
        · rw [hLmk k (fun he => hkn he.symm) (fun he => hkc2 he.symm)]
          exact hkm
        · rw [hLck k (fun he => hkn he.symm) (fun he => hkc2 he.symm)]
          exact hkc
  · rintro ⟨k0, hk0, huniq⟩
    by_cases hgg : gstr = g
    · subst hgg
      have hk0c : cardId = k0 := huniq cardId ⟨meta, hm, hmg, hcanon⟩
      refine ⟨nc.id, ⟨{ mn with is_canonical := true }, hLmn, ?_, rfl⟩, ?_⟩
      · show mn.pattern_group = some gstr
        exact hmng
      · rintro k ⟨mk, hkm, hkg, hkcan⟩
        by_cases hkn : k = nc.id
        · exact hkn
        · by_cases hkc2 : k = cardId
          · subst hkc2
            rw [hLmc] at hkm
            injection hkm with hkm
            subst hkm
            exact absurd hkcan (by simp)
          · rw [hLmk k (fun he => hkn he.symm) (fun he => hkc2 he.symm)] at hkm
            have := huniq k ⟨mk, hkm, hkg, hkcan⟩
            exact absurd (this.trans hk0c.symm) hkc2
    · have hiff : ∀ k, canonAt (gradSwap s cardId nc now) g k ↔ canonAt s g k := by
        intro k
        by_cases hkn : k = nc.id
        · subst hkn
          constructor
          · rintro ⟨mk, hkm, hkg, hkcan⟩
            rw [hLmn] at hkm
            injection hkm with hkm
            subst hkm
            have : mn.pattern_group = some g := hkg
            rw [hmng] at this
            injection this with this
            exact absurd this hgg
          · rintro ⟨mk, hkm, hkg, hkcan⟩
            rw [hmn] at hkm
            injection hkm with hkm
            subst hkm
            rw [hmng] at hkg
            injection hkg with hkg
            exact absurd hkg hgg
        · by_cases hkc2 : k = cardId
          · subst hkc2
            constructor
            · rintro ⟨mk, hkm, hkg, hkcan⟩
              rw [hLmc] at hkm
              injection hkm with hkm
              subst hkm
              have : meta.pattern_group = some g := hkg
              rw [hmg] at this
              injection this with this
              exact absurd this hgg
            · rintro ⟨mk, hkm, hkg, hkcan⟩
              rw [hm] at hkm
              injection hkm with hkm
              subst hkm
              rw [hmg] at hkg
              injection hkg with hkg
              exact absurd hkg hgg
          · rw [canonAt, canonAt,
              hLmk k (fun he => hkn he.symm) (fun he => hkc2 he.symm)]
      exact ⟨k0, (hiff k0).mpr hk0, fun k hk => huniq k ((hiff k).mp hk)⟩

theorem truthy_exists {pg : Option String} (h : truthy pg = true) :
    ∃ g, pg = some g := by
  rcases pg with _ | g
  · simp [truthy] at h
  · exact ⟨g, rfl⟩

theorem checkGraduation_inv (shuffle : List Card → List Card) (now : ℚ)
    (s : SRSState) (cardId : String) (grade : Rating)
    (hwf : WF s) (hperm : ∀ l, (shuffle l).Perm l) :
    WF (checkGraduation shuffle now s cardId grade) ∧
    ∀ g, (groupActive s g → groupActive (checkGraduation shuffle now s cardId grade) g) ∧
      (canonUnique s g → canonUnique (checkGraduation shuffle now s cardId grade) g) := by
  rcases checkGraduation_shape shuffle now s cardId grade with h |
    ⟨card, meta, nc, hc, hcg, hm, hcanon, hh, h⟩ |
    ⟨card, meta, hc, hcg, hm, hcanon, hnil, h⟩
  · rw [h]; exact ⟨hwf, fun g => ⟨fun a => a, fun a => a⟩⟩
  · have hns : nc ∈ shuffle ((getSiblingCards s meta.pattern_group).filter
        (fun c => c.graduated && c.id != cardId)) :=
      List.mem_of_mem_head? hh
    have hnf := (hperm _).mem_iff.mp hns
    have hmemf := List.mem_filter.mp hnf
    have hsib : nc ∈ getSiblingCards s meta.pattern_group := hmemf.1
    have hbool := hmemf.2
    simp only [Bool.and_eq_true, bne_iff_ne] at hbool
    obtain ⟨_, _, htr⟩ := mem_getSiblingCards hwf hsib
    obtain ⟨gstr, hmg⟩ := truthy_exists htr
    rw [h]
    exact gradSwap_inv s cardId now meta nc gstr hwf hm hcanon hmg hsib hbool.2
  · obtain ⟨csib, hcsib⟩ := List.exists_mem_of_ne_nil _ hnil
    have hmemf := List.mem_filter.mp hcsib
    have hbool := hmemf.2
    simp only [Bool.and_eq_true, bne_iff_ne, Bool.not_eq_true'] at hbool
    rw [h]
    exact gradRetire_inv s cardId now meta csib hwf hm hmemf.1 hbool.1 hbool.2

theorem checkReactivation_inv (shuffle : List Card → List Card) (now : ℚ)
    (s : SRSState) (cardId : String) (hwf : WF s) :
    WF (checkReactivation shuffle now s cardId) ∧
    ∀ g, (groupActive s g → groupActive (checkReactivation shuffle now s cardId) g) ∧
      (canonUnique s g → canonUnique (checkReactivation shuffle now s cardId) g) := by
  rcases checkReactivation_shape shuffle now s cardId with h | ⟨meta, card, _, _, _, _, _, h⟩
  · rw [h]; exact ⟨hwf, fun g => ⟨fun a => a, fun a => a⟩⟩
  · rw [h]
    set R := (shuffle (getGraduatedSiblings s meta.pattern_group)).take 3
    have hre : ∀ v, (reactivateCard now v).graduated = false := fun v => rfl
    have hri : ∀ v, (reactivateCard now v).id = v.id := fun v => rfl
    constructor
    · refine ⟨?_, ?_, hwf.2.2⟩
      · show ((List.foldl (foldStep (reactivateCard now)) s.cards R).map Prod.fst).Nodup
        rw [map_fst_foldStep]; exact hwf.1
      · intro p hp
        have hp2 : p ∈ List.foldl (foldStep (reactivateCard now)) s.cards R := hp
        exact ids_foldStep hri R s.cards hwf.2.1 p hp2
    · intro g
      constructor
      · rintro ⟨k, c, hg, hkc, hgrad⟩
        obtain ⟨v2, hv2, hP⟩ := @lookupKey_foldStep_pres
          (fun c => c.graduated = false) (reactivateCard now) hre R s.cards k c hkc hgrad
        exact ⟨k, v2, hg, hv2, hP⟩
      · exact fun a => a

theorem processReview_inv (shuffle : List Card → List Card) (s : SRSState)
    (cardId : String) (grade : Rating) (errInfo : Option String) (now : ℚ)
    (hwf : WF s) (hperm : ∀ l, (shuffle l).Perm l) :
    WF (processReview shuffle s cardId grade errInfo now).1 ∧
    ∀ g, (groupActive s g →
        groupActive (processReview shuffle s cardId grade errInfo now).1 g) ∧
      (canonUnique s g →
        canonUnique (processReview shuffle s cardId grade errInfo now).1 g) := by
  unfold processReview
  rcases hc : lookupKey cardId s.cards with _ | card
  · exact ⟨hwf, fun g => ⟨fun a => a, fun a => a⟩⟩
  dsimp only
  obtain ⟨hwf1, hinv1⟩ := applyMain_inv s cardId card grade errInfo now hwf hc
  obtain ⟨hwf2, hinv2⟩ := checkGraduation_inv shuffle now
    (applyMain s cardId card grade errInfo now) cardId grade hwf1 hperm
  by_cases hag : grade = Rating.Again
  · rw [if_pos hag]
    obtain ⟨hwf3, hinv3⟩ := checkReactivation_inv shuffle now
      (checkGraduation shuffle now (applyMain s cardId card grade errInfo now)
        cardId grade) cardId hwf2
    exact ⟨hwf3, fun g =>
      ⟨fun a => (hinv3 g).1 ((hinv2 g).1 ((hinv1 g).1 a)),
       fun a => (hinv3 g).2 ((hinv2 g).2 ((hinv1 g).2 a))⟩⟩
  · rw [if_neg hag]
    exact ⟨hwf2, fun g =>
      ⟨fun a => (hinv2 g).1 ((hinv1 g).1 a),
       fun a => (hinv2 g).2 ((hinv1 g).2 a)⟩⟩

theorem applyReviews_inv (revs : List Rev) (s0 : SRSState)
    (hwf : WF s0) (hperm : ∀ r ∈ revs, ∀ l, (r.shuffle l).Perm l) :
    WF (applyReviews s0 revs) ∧
    ∀ g, (groupActive s0 g → groupActive (applyReviews s0 revs) g) ∧
      (canonUnique s0 g → canonUnique (applyReviews s0 revs) g) := by
  induction revs generalizing s0 with
  | nil => exact ⟨hwf, fun g => ⟨fun a => a, fun a => a⟩⟩
  | cons r revs ih =>
    have hstep := processReview_inv r.shuffle s0 r.cardId r.grade r.errInfo r.now
      hwf (hperm r (List.mem_cons_self _ _))
    have hrest := ih ((processReview r.shuffle s0 r.cardId r.grade r.errInfo r.now).1)
      hstep.1 (fun q hq => hperm q (List.mem_cons_of_mem _ hq))
    refine ⟨hrest.1, fun g => ⟨?_, ?_⟩⟩
    · exact fun a => (hrest.2 g).1 ((hstep.2 g).1 a)
    · exact fun a => (hrest.2 g).2 ((hstep.2 g).2 a)

/-- C1: for every pattern group with at least two member cards, after any
sequence of `processReview` calls the group never reaches a state with
zero active (non-graduated) members, and the canonical swap of the
graduation check preserves the property that exactly one card of the
group is canonical. -/
theorem c1_graduation_invariant (s0 : SRSState) (revs : List Rev) (g : String)
    (hwf : WF s0)
    (hperm : ∀ r ∈ revs, ∀ l, (r.shuffle l).Perm l)
    (hmem : 2 ≤ (groupCards s0 g).length)
    (hact : groupActive s0 g)
    (hcanon : canonUnique s0 g) :
    groupActive (applyReviews s0 revs) g ∧
    canonUnique (applyReviews s0 revs) g := by
  have h := applyReviews_inv revs s0 hwf hperm
  exact ⟨(h.2 g).1 hact, (h.2 g).2 hcanon⟩

/-- Witness for C1 at a concrete two-card pattern group and one `Good`
review of the canonical. -/
theorem c1_witness :
    groupActive (applyReviews c1State [c1Rev]) "g" ∧
    canonUnique (applyReviews c1State [c1Rev]) "g" := by
  refine c1_graduation_invariant c1State [c1Rev] "g" ?_ ?_ ?_ ?_ ?_
  · unfold WF
    refine ⟨by decide, ?_, by decide⟩
    decide
  · intro r hr l
    simp only [List.mem_cons, List.not_mem_nil, or_false] at hr
    subst hr
    exact List.Perm.refl l
  · decide
  · exact ⟨"a", baseCard "a", ⟨⟨some "g", true⟩, rfl, rfl⟩, rfl, rfl⟩
  · refine ⟨"a", ⟨⟨some "g", true⟩, rfl, rfl, rfl⟩, ?_⟩
    rintro y ⟨m, hm, hg2, hcan⟩
    have hkeys := keys_mem_of_lookupKey_eq_some hm
    have hkeys2 : y ∈ ["a", "b"] := by
      have he : c1State.drillMeta.map Prod.fst = ["a", "b"] := rfl
      rw [he] at hkeys
      exact hkeys
    simp only [List.mem_cons, List.not_mem_nil, or_false] at hkeys2
    rcases hkeys2 with rfl | rfl
    · rfl
    · have hm2 : m = ⟨some "g", false⟩ := by
        have : lookupKey "b" c1State.drillMeta = some ⟨some "g", false⟩ := rfl
        rw [this] at hm
        injection hm with hm
        exact hm.symm
      rw [hm2] at hcan
      exact absurd hcan (by decide)

/-- C9: `processReview` addressed to an id with no card returns `null`
and leaves the whole state (cards, queue, statistics, `lastPattern`)
unchanged, and `resetCard` on such an id does nothing; neither throws. -/
theorem c9_unknown_card (shuffle : List Card → List Card) (s : SRSState)
    (cardId : String) (grade : Rating) (errInfo : Option String) (now : ℚ)
    (h : lookupKey cardId s.cards = none) :
    processReview shuffle s cardId grade errInfo now = (s, none) ∧
    resetCard s cardId now = s := by
  constructor
  · unfold processReview
    rw [h]
  · unfold resetCard
    rw [h]

/-- Witness for C9 on the empty card map. -/
theorem c9_witness :
    processReview (fun l => l) emptyState "z" Rating.Good none 0 =
      (emptyState, none) ∧
    resetCard emptyState "z" 0 = emptyState :=
  c9_unknown_card (fun l => l) emptyState "z" Rating.Good none 0 rfl

theorem checkGraduation_keeps_sched (shuffle : List Card → List Card)
    (now : ℚ) (s : SRSState) (cardId : String) (grade : Rating)
    (hperm : ∀ l, (shuffle l).Perm l)
    (card2 : Card) (hc : lookupKey cardId s.cards = some card2) :
    ∃ card3, lookupKey cardId (checkGraduation shuffle now s cardId grade).cards =
        some card3 ∧
      card3.state = card2.state ∧ card3.learning_step = card2.learning_step ∧
      card3.stability = card2.stability ∧ card3.difficulty = card2.difficulty ∧
      card3.due = card2.due := by
  rcases checkGraduation_shape shuffle now s cardId grade with h |
    ⟨card, meta, nc, hcx, hcg, hm, hcanon, hh, h⟩ |
    ⟨card, meta, hcx, hcg, hm, hcanon, hnil, h⟩
  · rw [h]
    exact ⟨card2, hc, rfl, rfl, rfl, rfl, rfl⟩
  · have hns : nc ∈ shuffle ((getSiblingCards s meta.pattern_group).filter
        (fun c => c.graduated && c.id != cardId)) :=
      List.mem_of_mem_head? hh
    have hnf := (hperm _).mem_iff.mp hns
    have hbool := (List.mem_filter.mp hnf).2
    simp only [Bool.and_eq_true, bne_iff_ne] at hbool
    rw [h]
    have hcards : (gradSwap s cardId nc now).cards =
        updateKey (updateKey s.cards cardId (fun c =>
          { c with graduated := true, graduation_date := some now }))
        nc.id (fun c =>
          { c with
              graduated := false
              consecutive_correct := 0
              state := CState.Review
              due := now }) := rfl
    refine ⟨{ card2 with graduated := true, graduation_date := some now }, ?_,
      rfl, rfl, rfl, rfl, rfl⟩
    rw [hcards, lookupKey_updateKey, if_neg hbool.2, lookupKey_updateKey,
      if_pos rfl, hc]
    rfl
  · rw [h]
    have hcards : (gradRetire s cardId now).cards =
        updateKey s.cards cardId (fun c =>
          { c with graduated := true, graduation_date := some now }) := rfl
    refine ⟨{ card2 with graduated := true, graduation_date := some now }, ?_,
      rfl, rfl, rfl, rfl, rfl⟩
    rw [hcards, lookupKey_updateKey, if_pos rfl, hc]
    rfl

theorem reviewCard_learning (card : Card) (grade : Rating)
    (errInfo : Option String) (now : ℚ)
    (hstate : card.state = CState.New ∨ card.state = CState.Learning ∨
      card.state = CState.Relearning)
    (hgrade : grade = Rating.Good ∨ grade = Rating.Hard) :
    ((if card.state = CState.Relearning then relearningSteps
        else learningSteps).length ≤ card.learning_step + 1 →
      (reviewCard card grade errInfo now).1.state = CState.Review ∧
      (reviewCard card grade errInfo now).1.learning_step = 0 ∧
      (reviewCard card grade errInfo now).1.stability =
        ((initStability grade : ℚ) : ℝ) ∧
      (reviewCard card grade errInfo now).1.difficulty = initDifficulty grade ∧
      (reviewCard card grade errInfo now).1.due =
        now + (if grade = Rating.Hard then 1 else graduatingInterval) * msPerDay) ∧
    (card.learning_step + 1 <
        (if card.state = CState.Relearning then relearningSteps
          else learningSteps).length →
      (reviewCard card grade errInfo now).1.state =
        (if card.state = CState.New then CState.Learning else card.state) ∧
      (reviewCard card grade errInfo now).1.learning_step =
        card.learning_step + 1 ∧
      (reviewCard card grade errInfo now).1.due =
        now + ((if card.state = CState.Relearning then relearningSteps
          else learningSteps).getD (card.learning_step + 1) 0) * msPerMinute) := by
  have hna : ¬grade = Rating.Again := by rcases hgrade with rfl | rfl <;> simp
  have hne2 : ¬grade = Rating.Easy := by rcases hgrade with rfl | rfl <;> simp
  have hlen : (if card.state = CState.Relearning then relearningSteps
      else learningSteps).length = 2 := by
    split_ifs <;> rfl
  simp only [reviewCard, reviewStep]
  dsimp only
  rw [if_pos hstate, if_neg hna, if_neg hne2, hlen]
  by_cases hgr : 2 ≤ card.learning_step + 1
  · rw [if_pos hgr]
    dsimp only
    rw [if_neg (lt_irrefl (0:ℚ))]
    exact ⟨fun _ => ⟨rfl, rfl, rfl, rfl, rfl⟩, fun hlt => absurd hgr (by omega)⟩
  · rw [if_neg hgr]
    have hls : card.learning_step = 0 := by omega
    rw [hls]
    have hgetD : (if card.state = CState.Relearning then relearningSteps
        else learningSteps).getD (0 + 1) 0 = 10 := by
      split_ifs <;> rfl
    rw [hgetD]
    dsimp only
    rw [if_pos (by norm_num : (0:ℚ) < 10)]
    exact ⟨fun hle => absurd hle (by omega), fun _ => ⟨rfl, rfl, rfl⟩⟩

/-- C2: for a card in state New, Learning or Relearning graded Good or
Hard, `processReview` advances `learning_step`; when the incremented
index reaches the length of the active step schedule the card enters
Review with stability and difficulty initialized from the grade and
due = now + (1 day if Hard else `graduatingInterval` days), otherwise it
stays in its learning state (New enters Learning) with
due = now + `steps[learning_step]` minutes. -/
theorem c2_learning_step_progression (shuffle : List Card → List Card)
    (s : SRSState) (cardId : String) (card : Card) (grade : Rating)
    (errInfo : Option String) (now : ℚ)
    (hperm : ∀ l, (shuffle l).Perm l)
    (hc : lookupKey cardId s.cards = some card)
    (hstate : card.state = CState.New ∨ card.state = CState.Learning ∨
      card.state = CState.Relearning)
    (hgrade : grade = Rating.Good ∨ grade = Rating.Hard) :
    ∃ card2, lookupKey cardId
        (processReview shuffle s cardId grade errInfo now).1.cards = some card2 ∧
      ((if card.state = CState.Relearning then relearningSteps
          else learningSteps).length ≤ card.learning_step + 1 →
        card2.state = CState.Review ∧ card2.learning_step = 0 ∧
        card2.stability = ((initStability grade : ℚ) : ℝ) ∧
        card2.difficulty = initDifficulty grade ∧
        card2.due = now + (if grade = Rating.Hard then 1
          else graduatingInterval) * msPerDay) ∧
      (card.learning_step + 1 <
          (if card.state = CState.Relearning then relearningSteps
            else learningSteps).length →
        card2.state = (if card.state = CState.New then CState.Learning
          else card.state) ∧
        card2.learning_step = card.learning_step + 1 ∧
        card2.due = now + ((if card.state = CState.Relearning then relearningSteps
          else learningSteps).getD (card.learning_step + 1) 0) * msPerMinute) := by
  have hag : ¬grade = Rating.Again := by rcases hgrade with rfl | rfl <;> simp
  unfold processReview
  rw [hc]
  dsimp only
  rw [if_neg hag]
  have ha : lookupKey cardId (applyMain s cardId card grade errInfo now).cards =
      some (reviewCard card grade errInfo now).1 := by
    have hcards : (applyMain s cardId card grade errInfo now).cards =
        updateKey s.cards cardId (fun _ => (reviewCard card grade errInfo now).1) := rfl
    rw [hcards, lookupKey_updateKey, if_pos rfl, hc]
    rfl
  obtain ⟨card3, hl3, hst, hls, hsb, hdf, hdue⟩ :=
    checkGraduation_keeps_sched shuffle now
      (applyMain s cardId card grade errInfo now) cardId grade hperm _ ha
  have hrl := reviewCard_learning card grade errInfo now hstate hgrade
  refine ⟨card3, hl3, ?_, ?_⟩
  · intro h
    obtain ⟨h1, h2, h3, h4, h5⟩ := hrl.1 h
    exact ⟨hst.trans h1, hls.trans h2, hsb.trans h3, hdf.trans h4, hdue.trans h5⟩
  · intro h
    obtain ⟨h1, h2, h3⟩ := hrl.2 h
    exact ⟨hst.trans h1, hls.trans h2, hdue.trans h3⟩

/-- Witness for C2: a New card graded Good advances to Learning step 1
with due ten minutes later. -/
theorem c2_witness :
    ∃ card2, lookupKey "a"
        (processReview (fun l => l) c2State "a" Rating.Good none 0).1.cards =
          some card2 ∧
      ((if (baseCard "a").state = CState.Relearning then relearningSteps
          else learningSteps).length ≤ (baseCard "a").learning_step + 1 →
        card2.state = CState.Review ∧ card2.learning_step = 0 ∧
        card2.stability = ((initStability Rating.Good : ℚ) : ℝ) ∧
        card2.difficulty = initDifficulty Rating.Good ∧
        card2.due = 0 + (if Rating.Good = Rating.Hard then 1
          else graduatingInterval) * msPerDay) ∧
      ((baseCard "a").learning_step + 1 <
          (if (baseCard "a").state = CState.Relearning then relearningSteps
            else learningSteps).length →
        card2.state = (if (baseCard "a").state = CState.New then CState.Learning
          else (baseCard "a").state) ∧
        card2.learning_step = (baseCard "a").learning_step + 1 ∧
        card2.due = 0 + ((if (baseCard "a").state = CState.Relearning then relearningSteps
          else learningSteps).getD ((baseCard "a").learning_step + 1) 0) * msPerMinute) :=
  c2_learning_step_progression (fun l => l) c2State "a" (baseCard "a")
    Rating.Good none 0 (fun l => List.Perm.refl l) rfl (Or.inl rfl) (Or.inl rfl)

theorem checkReactivation_due_ge (shuffle : List Card → List Card) (now : ℚ)
    (s : SRSState) (cardId : String) (k : String) (c : Card)
    (hkc : lookupKey k s.cards = some c) (hP : now ≤ c.due) :
    ∃ c2, lookupKey k (checkReactivation shuffle now s cardId).cards = some c2 ∧
      now ≤ c2.due := by
  rcases checkReactivation_shape shuffle now s cardId with h | ⟨meta, card, _, _, _, _, _, h⟩
  · rw [h]; exact ⟨c, hkc, hP⟩
  · rw [h]
    exact @lookupKey_foldStep_pres (fun c => now ≤ c.due) (reactivateCard now)
      (fun v => le_refl now) _ s.cards k c hkc hP

/-- C5 (amended): when a card is actually due (`due ≤ now` at review
time), `processReview` never moves its due timestamp earlier; reviewing
a card ahead of its due time can shorten it. -/
theorem c5_due_monotone (shuffle : List Card → List Card) (s : SRSState)
    (cardId : String) (card : Card) (grade : Rating)
    (errInfo : Option String) (now : ℚ)
    (hperm : ∀ l, (shuffle l).Perm l)
    (hc : lookupKey cardId s.cards = some card)
    (hdue : card.due ≤ now) :
    ∃ card2, lookupKey cardId
        (processReview shuffle s cardId grade errInfo now).1.cards = some card2 ∧
      card.due ≤ card2.due := by
  unfold processReview
  rw [hc]
  dsimp only
  have ha : lookupKey cardId (applyMain s cardId card grade errInfo now).cards =
      some (reviewCard card grade errInfo now).1 := by
    have hcards : (applyMain s cardId card grade errInfo now).cards =
        updateKey s.cards cardId (fun _ => (reviewCard card grade errInfo now).1) := rfl
    rw [hcards, lookupKey_updateKey, if_pos rfl, hc]
    rfl
  obtain ⟨card3, hl3, _, _, _, _, hdue3⟩ :=
    checkGraduation_keeps_sched shuffle now
      (applyMain s cardId card grade errInfo now) cardId grade hperm _ ha
  have h3 : now ≤ card3.due := by
    rw [hdue3]
    exact reviewCard_due_ge card grade errInfo now
  by_cases hag : grade = Rating.Again
  · rw [if_pos hag]
    obtain ⟨c4, hl4, h4⟩ := checkReactivation_due_ge shuffle now _ cardId cardId
      card3 hl3 h3
    exact ⟨c4, hl4, le_trans hdue h4⟩
  · rw [if_neg hag]
    exact ⟨card3, hl3, le_trans hdue h3⟩

/-- Counterexample to C5 as stated: a Learning card that is due in ten
minutes, reviewed ahead of time with grade Again, has its due timestamp
moved earlier (from 600000 to 60000 milliseconds). -/
theorem c5_counterexample :
    Option.map Card.due (lookupKey "a" c5State.cards) = some 600000 ∧
    Option.map Card.due (lookupKey "a"
      (processReview (fun l => l) c5State "a" Rating.Again none 0).1.cards) =
      some 60000 ∧
    ¬((600000 : ℚ) ≤ 60000) := by
  refine ⟨rfl, ?_, by norm_num⟩
  have hdue : ((reviewCard c5Card Rating.Again none 0).1).due = 60000 := by
    simp only [reviewCard, reviewStep, recordError, c5Card, baseCard]
    dsimp only
    norm_num [learningSteps, relearningSteps, msPerMinute]
  have hstate : (processReview (fun l => l) c5State "a" Rating.Again none 0).1.cards =
      updateKey c5State.cards "a"
        (fun _ => (reviewCard c5Card Rating.Again none 0).1) := rfl
  rw [hstate, lookupKey_updateKey, if_pos rfl,
    (rfl : lookupKey "a" c5State.cards = some c5Card)]
  show some ((reviewCard c5Card Rating.Again none 0).1).due = some 60000
  rw [hdue]

/-- Witness for the amended C5: a due New card graded Good keeps a due
timestamp at least as late as before. -/
theorem c5_witness :
    ∃ card2, lookupKey "a"
        (processReview (fun l => l) c2State "a" Rating.Good none 0).1.cards =
          some card2 ∧
      (baseCard "a").due ≤ card2.due :=
  c5_due_monotone (fun l => l) c2State "a" (baseCard "a") Rating.Good none 0
    (fun l => List.Perm.refl l) rfl (by decide)

theorem mem_updateKey_proj {α β : Type} (g : α → β) {f : α → α}
    (hg : ∀ v, g (f v) = g v) {cs : List (String × α)} {j : String} :
    ∀ q ∈ updateKey cs j f, ∃ p ∈ cs, g q.2 = g p.2 := by
  intro q hq
  rcases mem_updateKey_provenance hq with ⟨p, hp, h1, h2 | h2⟩
  · exact ⟨p, hp, by rw [h2]⟩
  · exact ⟨p, hp, by rw [h2.2, hg]⟩

theorem mem_foldStep_proj {β : Type} (g : Card → β) {f : Card → Card}
    (hg : ∀ v, g (f v) = g v) :
    ∀ (R : List Card) (cs : List (String × Card)),
      ∀ q ∈ R.foldl (foldStep f) cs, ∃ p ∈ cs, g q.2 = g p.2 := by
  intro R
  induction R with
  | nil => exact fun cs q hq => ⟨q, hq, rfl⟩
  | cons a R ih =>
    intro cs q hq
    simp only [List.foldl_cons] at hq
    obtain ⟨p, hp, he⟩ := ih (updateKey cs a.id f) q hq
    obtain ⟨p2, hp2, he2⟩ := mem_updateKey_proj g hg p hp
    exact ⟨p2, hp2, he.trans he2⟩

theorem checkGraduation_diff (shuffle : List Card → List Card) (now : ℚ)
    (s : SRSState) (cardId : String) (grade : Rating) :
    ∀ q ∈ (checkGraduation shuffle now s cardId grade).cards,
      ∃ p ∈ s.cards, q.2.difficulty = p.2.difficulty := by
  rcases checkGraduation_shape shuffle now s cardId grade with h |
    ⟨card, meta, nc, _, _, _, _, _, h⟩ | ⟨card, meta, _, _, _, _, _, h⟩
  · rw [h]; exact fun q hq => ⟨q, hq, rfl⟩
  · rw [h]
    intro q hq
    have hcards : (gradSwap s cardId nc now).cards =
        updateKey (updateKey s.cards cardId (fun c =>
          { c with graduated := true, graduation_date := some now }))
        nc.id (fun c =>
          { c with
              graduated := false
              consecutive_correct := 0
              state := CState.Review
              due := now }) := rfl
    rw [hcards] at hq
    obtain ⟨p, hp, he⟩ := @mem_updateKey_proj Card ℚ Card.difficulty
      (fun c =>
        { c with
            graduated := false
            consecutive_correct := 0
            state := CState.Review
            due := now })
      (fun v => rfl) _ nc.id q hq
    obtain ⟨p2, hp2, he2⟩ := @mem_updateKey_proj Card ℚ Card.difficulty
      (fun c => { c with graduated := true, graduation_date := some now })
      (fun v => rfl) s.cards cardId p hp
    exact ⟨p2, hp2, he.trans he2⟩
  · rw [h]
    intro q hq
    have hcards : (gradRetire s cardId now).cards =
        updateKey s.cards cardId (fun c =>
          { c with graduated := true, graduation_date := some now }) := rfl
    rw [hcards] at hq
    exact @mem_updateKey_proj Card ℚ Card.difficulty
      (fun c => { c with graduated := true, graduation_date := some now })
      (fun v => rfl) s.cards cardId q hq

theorem checkReactivation_diff (shuffle : List Card → List Card) (now : ℚ)
    (s : SRSState) (cardId : String) :
    ∀ q ∈ (checkReactivation shuffle now s cardId).cards,
      ∃ p ∈ s.cards, q.2.difficulty = p.2.difficulty := by
  rcases checkReactivation_shape shuffle now s cardId with h |
    ⟨meta, card, _, _, _, _, _, h⟩
  · rw [h]; exact fun q hq => ⟨q, hq, rfl⟩
  · rw [h]
    intro q hq
    exact @mem_foldStep_proj ℚ Card.difficulty (reactivateCard now)
      (fun v => rfl) _ s.cards q hq

theorem initDifficulty_bounds (grade : Rating) :
    1 ≤ initDifficulty grade ∧ initDifficulty grade ≤ 10 := by
  unfold initDifficulty
  exact ⟨le_max_left _ _, max_le (by norm_num) (min_le_left _ _)⟩

theorem nextDifficulty_bounds (d : ℚ) (grade : Rating) :
    1 ≤ nextDifficulty d grade ∧ nextDifficulty d grade ≤ 10 := by
  unfold nextDifficulty
  exact ⟨le_max_left _ _, max_le (by norm_num) (min_le_left _ _)⟩

theorem processReview_diffOK (shuffle : List Card → List Card) (s : SRSState)
    (cardId : String) (grade : Rating) (errInfo : Option String) (now : ℚ)
    (h : ∀ p ∈ s.cards, diffOK p.2.difficulty) :
    ∀ p ∈ (processReview shuffle s cardId grade errInfo now).1.cards,
      diffOK p.2.difficulty := by
  unfold processReview
  rcases hc : lookupKey cardId s.cards with _ | card
  · exact h
  dsimp only
  have hd : diffOK card.difficulty := h _ (mem_of_lookupKey_eq_some hc)
  have h1 : ∀ p ∈ (applyMain s cardId card grade errInfo now).cards,
      diffOK p.2.difficulty := by
    intro p hp
    have hcards : (applyMain s cardId card grade errInfo now).cards =
        updateKey s.cards cardId (fun _ => (reviewCard card grade errInfo now).1) := rfl
    rw [hcards] at hp
    rcases mem_updateKey_provenance hp with ⟨q, hq, he1, he2 | he2⟩
    · rw [he2]; exact h q hq
    · rw [he2.2]
      rcases reviewCard_difficulty_cases card grade errInfo now with hh | hh | hh
      · rw [hh]; exact hd
      · rw [hh]; exact Or.inr (initDifficulty_bounds grade)
      · rw [hh]; exact Or.inr (nextDifficulty_bounds card.difficulty grade)
  have h2 : ∀ p ∈ (checkGraduation shuffle now
      (applyMain s cardId card grade errInfo now) cardId grade).cards,
      diffOK p.2.difficulty := by
    intro p hp
    obtain ⟨q, hq, he⟩ := checkGraduation_diff shuffle now _ cardId grade p hp
    rw [he]; exact h1 q hq
  by_cases hag : grade = Rating.Again
  · rw [if_pos hag]
    intro p hp
    obtain ⟨q, hq, he⟩ := checkReactivation_diff shuffle now _ cardId p hp
    rw [he]; exact h2 q hq
  · rw [if_neg hag]
    exact h2

/-- C4 (amended): a freshly created card has `difficulty = 0`, every
difficulty value produced by `initDifficulty` or `nextDifficulty` lies in
`[1, 10]`, and after any sequence of reviews every stored difficulty is
either the initial `0` (never yet assigned) or lies in `[1, 10]`. -/
theorem c4_difficulty_bounds :
    (∀ id sd now, (createCard id sd now).difficulty = 0) ∧
    (∀ grade, 1 ≤ initDifficulty grade ∧ initDifficulty grade ≤ 10) ∧
    (∀ d grade, 1 ≤ nextDifficulty d grade ∧ nextDifficulty d grade ≤ 10) ∧
    (∀ (revs : List Rev) (s0 : SRSState),
      (∀ p ∈ s0.cards, diffOK p.2.difficulty) →
      ∀ p ∈ (applyReviews s0 revs).cards, diffOK p.2.difficulty) := by
  refine ⟨fun id sd now => rfl, initDifficulty_bounds, nextDifficulty_bounds, ?_⟩
  intro revs
  induction revs with
  | nil => exact fun s0 h => h
  | cons r revs ih =>
    intro s0 h
    exact ih _ (processReview_diffOK r.shuffle s0 r.cardId r.grade r.errInfo r.now h)

/-- Counterexample to C4 as stated: a freshly created New card has
difficulty `0`, which is outside `[1, 10]`. -/
theorem c4_counterexample :
    (createCard "x" ⟨"p", 1/2, 1⟩ 0).difficulty = 0 ∧
    ¬(1 ≤ (createCard "x" ⟨"p", 1/2, 1⟩ 0).difficulty) := by
  constructor
  · rfl
  · show ¬(1 ≤ (0:ℚ))
    norm_num

/-- Witness for the amended C4 on a concrete state and one review. -/
theorem c4_witness :
    ∀ p ∈ (applyReviews c1State [c1Rev]).cards, diffOK p.2.difficulty := by
  refine (c4_difficulty_bounds.2.2.2) [c1Rev] c1State ?_
  intro p hp
  have hp2 : p ∈ [("a", baseCard "a"),
      ("b", { baseCard "b" with graduated := true, state := CState.Review })] := hp
  rcases List.mem_cons.mp hp2 with rfl | hp3
  · exact Or.inl rfl
  · rcases List.mem_cons.mp hp3 with rfl | hp4
    · exact Or.inl rfl
    · cases hp4

/-- C10: with the default parameter vector, a successful review
(`Hard`, `Good` or `Easy`) never decreases stability:
`nextReviewStability(d, s, r, grade) >= s` for difficulty in `[1, 10]`,
positive stability and retrievability in `[0, 1]`. -/
theorem c10_stability_never_decreases (d : ℚ) (s : ℝ) (r : ℝ) (grade : Rating)
    (hd1 : 1 ≤ d) (hd2 : d ≤ 10) (hs : 0 < s) (hr0 : 0 ≤ r) (hr1 : r ≤ 1)
    (hg : grade = Rating.Hard ∨ grade = Rating.Good ∨ grade = Rating.Easy) :
    s ≤ nextReviewStability d s r grade := by
  unfold nextReviewStability
  dsimp only
  have hd2R : ((d:ℝ)) ≤ 10 := by exact_mod_cast hd2
  have h11 : (0:ℝ) ≤ 11 - (d:ℝ) := by linarith
  have hexp8 : (0:ℝ) ≤ Real.exp ((wq 8 : ℚ) : ℝ) := (Real.exp_pos _).le
  have hpow : (0:ℝ) ≤ s ^ (-((wq 9 : ℚ) : ℝ)) :=
    (Real.rpow_pos_of_pos hs _).le
  have hw10 : (0:ℝ) ≤ ((wq 10 : ℚ) : ℝ) := by
    have : wq 10 = 0.94 := rfl
    rw [this]
    norm_num
  have hexpF : (0:ℝ) ≤ Real.exp (((wq 10 : ℚ) : ℝ) * (1 - r)) - 1 := by
    have harg : (0:ℝ) ≤ ((wq 10 : ℚ) : ℝ) * (1 - r) :=
      mul_nonneg hw10 (by linarith)
    have := Real.one_le_exp harg
    linarith
  have hhp : (0:ℝ) ≤ (if grade = Rating.Hard then ((wq 15 : ℚ) : ℝ) else 1) := by
    split_ifs
    · have : wq 15 = 0.29 := rfl
      rw [this]; norm_num
    · norm_num
  have heb : (0:ℝ) ≤ (if grade = Rating.Easy then ((wq 16 : ℚ) : ℝ) else 1) := by
    split_ifs
    · have : wq 16 = 2.61 := rfl
      rw [this]; norm_num
    · norm_num
  have hsinc : (0:ℝ) ≤ Real.exp ((wq 8 : ℚ) : ℝ) * (11 - (d:ℝ)) *
      s ^ (-((wq 9 : ℚ) : ℝ)) *
      (Real.exp (((wq 10 : ℚ) : ℝ) * (1 - r)) - 1) *
      (if grade = Rating.Hard then ((wq 15 : ℚ) : ℝ) else 1) *
      (if grade = Rating.Easy then ((wq 16 : ℚ) : ℝ) else 1) := by
    exact mul_nonneg (mul_nonneg (mul_nonneg (mul_nonneg
      (mul_nonneg hexp8 h11) hpow) hexpF) hhp) heb
  nlinarith [hsinc, hs]

/-- Witness for C10 at difficulty 5, stability 1, retrievability one half
and grade Good. -/
theorem c10_witness :
    (1:ℝ) ≤ nextReviewStability 5 1 (1/2) Rating.Good :=
  c10_stability_never_decreases 5 1 (1/2) Rating.Good
    (by norm_num) (by norm_num) (by norm_num) (by norm_num) (by norm_num)
    (Or.inr (Or.inl rfl))

theorem queueLE_total (a b : Card) : queueLE a b || queueLE b a := by
  unfold queueLE
  by_cases ha : a.state = CState.New <;> by_cases hb : b.state = CState.New <;>
    simp [ha, hb]
  · exact le_total b.commonality a.commonality
  · exact le_total a.due b.due

theorem queueLE_trans (a b c : Card) (hab : queueLE a b) (hbc : queueLE b c) :
    queueLE a c := by
  unfold queueLE at hab hbc ⊢
  by_cases ha : a.state = CState.New <;> by_cases hb : b.state = CState.New <;>
    by_cases hc : c.state = CState.New <;>
    simp only [ha, hb, hc] at hab hbc ⊢ <;>
    simp_all <;>
    first
      | exact le_trans hbc hab
      | exact le_trans hab hbc

theorem queueLE_imp (a b : Card) (h : queueLE a b) :
    (b.state = CState.New → a.state = CState.New) ∧
    (a.state = CState.New → b.state = CState.New →
      b.commonality ≤ a.commonality) ∧
    (a.state ≠ CState.New → b.state ≠ CState.New → a.due ≤ b.due) := by
  unfold queueLE at h
  by_cases ha : a.state = CState.New <;> by_cases hb : b.state = CState.New <;>
    simp only [ha, hb] at h ⊢ <;> simp_all

theorem mem_getDueCards {s : SRSState} {now : ℚ} {c : Card} :
    c ∈ getDueCards s now ↔ ∃ k, (k, c) ∈ s.cards ∧ c.graduated = false ∧
      (c.due ≤ now ∨ c.state = CState.New) := by
  unfold getDueCards
  constructor
  · intro h
    rcases List.mem_map.mp h with ⟨p, hp, he⟩
    have hf := List.mem_filter.mp hp
    have hcond := hf.2
    simp only [Bool.and_eq_true, Bool.not_eq_true', Bool.or_eq_true,
      decide_eq_true_eq, beq_iff_eq] at hcond
    subst he
    exact ⟨p.1, by rcases p with ⟨p1, p2⟩; exact hf.1, hcond.1, hcond.2⟩
  · rintro ⟨k, hk, hg2, hdue⟩
    refine List.mem_map.mpr ⟨(k, c), List.mem_filter.mpr ⟨hk, ?_⟩, rfl⟩
    simp only [Bool.and_eq_true, Bool.not_eq_true', Bool.or_eq_true,
      decide_eq_true_eq, beq_iff_eq]
    exact ⟨hg2, hdue⟩

/-- C3: `buildSessionQueue(max)` stores exactly the non-graduated cards
that are due or New, with New cards before all others, New cards in
descending commonality order, non-New cards in ascending due order, and
the queue truncated to at most `max` entries (every eligible card is
kept unless the cap is hit). -/
theorem c3_session_queue (s : SRSState) (maxCards : ℕ) (now : ℚ) :
    (∀ c ∈ (buildSessionQueue s maxCards now).sessionQueue,
      ∃ k, (k, c) ∈ s.cards ∧ c.graduated = false ∧
        (c.due ≤ now ∨ c.state = CState.New)) ∧
    (buildSessionQueue s maxCards now).sessionQueue.length =
      min maxCards (getDueCards s now).length ∧
    (∀ c ∈ getDueCards s now,
      c ∈ (buildSessionQueue s maxCards now).sessionQueue ∨
      (buildSessionQueue s maxCards now).sessionQueue.length = maxCards) ∧
    List.Pairwise (fun a b =>
      (b.state = CState.New → a.state = CState.New) ∧
      (a.state = CState.New → b.state = CState.New →
        b.commonality ≤ a.commonality) ∧
      (a.state ≠ CState.New → b.state ≠ CState.New → a.due ≤ b.due))
      (buildSessionQueue s maxCards now).sessionQueue := by
  have hq : (buildSessionQueue s maxCards now).sessionQueue =
      ((getDueCards s now).mergeSort queueLE).take maxCards := rfl
  have hperm := List.mergeSort_perm (getDueCards s now) queueLE
  have hsorted := List.sorted_mergeSort
    (fun a b c hab hbc => queueLE_trans a b c hab hbc)
    (fun a b => queueLE_total a b)
    (getDueCards s now)
  refine ⟨?_, ?_, ?_, ?_⟩
  · intro c hc
    rw [hq] at hc
    have hc2 : c ∈ (getDueCards s now).mergeSort queueLE :=
      List.take_subset _ _ hc
    exact mem_getDueCards.mp (hperm.mem_iff.mp hc2)
  · rw [hq, List.length_take, hperm.length_eq]
  · intro c hc
    rw [hq]
    by_cases hlen : ((getDueCards s now).mergeSort queueLE).length ≤ maxCards
    · left
      rw [List.take_of_length_le hlen]
      exact hperm.mem_iff.mpr hc
    · right
      rw [List.length_take]
      push_neg at hlen
      omega
  · rw [hq]
    exact (hsorted.sublist (List.take_sublist _ _)).imp
      (fun h => queueLE_imp _ _ h)

/-- Witness for C3 on a store with one overdue Review card and two New
cards of commonality 0.8 and 0.3. -/
theorem c3_witness :
    (∀ c ∈ (buildSessionQueue c3State 20 0).sessionQueue,
      ∃ k, (k, c) ∈ c3State.cards ∧ c.graduated = false ∧
        (c.due ≤ (0:ℚ) ∨ c.state = CState.New)) ∧
    (buildSessionQueue c3State 20 0).sessionQueue.length =
      min 20 (getDueCards c3State 0).length ∧
    (∀ c ∈ getDueCards c3State 0,
      c ∈ (buildSessionQueue c3State 20 0).sessionQueue ∨
      (buildSessionQueue c3State 20 0).sessionQueue.length = 20) ∧
    List.Pairwise (fun a b =>
      (b.state = CState.New → a.state = CState.New) ∧
      (a.state = CState.New → b.state = CState.New →
        b.commonality ≤ a.commonality) ∧
      (a.state ≠ CState.New → b.state ≠ CState.New → a.due ≤ b.due))
      (buildSessionQueue c3State 20 0).sessionQueue :=
  c3_session_queue c3State 20 0

/-- C8: with a non-empty queue, a recorded `lastPattern`, and some queued
card of a different pattern, `getNextCard` pops the first card whose
`pos_pattern` differs from `lastPattern`, and the remaining queue is the
old queue with exactly that card removed (a single rotation, order of
the other entries unchanged). -/
theorem c8_pattern_rotation (s : SRSState) (now : ℚ) (p : String)
    (hne : s.sessionQueue ≠ [])
    (hlp : s.lastPattern = some p)
    (hp : ¬p = "")
    (hex : ∃ c ∈ s.sessionQueue, c.pos_pattern ≠ p) :
    ∃ i c, s.sessionQueue[i]? = some c ∧ c.pos_pattern ≠ p ∧
      (∀ j cj, j < i → s.sessionQueue[j]? = some cj → cj.pos_pattern = p) ∧
      getNextCard s now =
        ({ s with sessionQueue := s.sessionQueue.eraseIdx i }, some c) := by
  obtain ⟨c0, hc0, hc0p⟩ := hex
  have hfind : s.sessionQueue.findIdx? (fun c => c.pos_pattern != p) =
      some (s.sessionQueue.findIdx (fun c => c.pos_pattern != p)) :=
    List.findIdx?_eq_some_of_exists ⟨c0, hc0, by simpa using hc0p⟩
  have hlt : s.sessionQueue.findIdx (fun c => c.pos_pattern != p) <
      s.sessionQueue.length :=
    (List.findIdx?_eq_some_iff_findIdx_eq.mp hfind).1
  have hie : s.sessionQueue.isEmpty = false := List.isEmpty_eq_false.mpr hne
  obtain ⟨q0, qrest, hQ⟩ : ∃ q0 qrest, s.sessionQueue = q0 :: qrest := by
    rcases hq : s.sessionQueue with _ | ⟨q0, qrest⟩
    · exact absurd hq hne
    · exact ⟨q0, qrest, rfl⟩
  refine ⟨s.sessionQueue.findIdx (fun c => c.pos_pattern != p),
    s.sessionQueue.getD (s.sessionQueue.findIdx (fun c => c.pos_pattern != p))
      (baseCard ""), ?_, ?_, ?_, ?_⟩
  · rw [List.getD_eq_getElem?_getD, List.getElem?_eq_getElem hlt]
    rfl
  · have hgd : s.sessionQueue.getD
        (s.sessionQueue.findIdx (fun c => c.pos_pattern != p)) (baseCard "") =
        s.sessionQueue[s.sessionQueue.findIdx (fun c => c.pos_pattern != p)] := by
      rw [List.getD_eq_getElem?_getD, List.getElem?_eq_getElem hlt]
      rfl
    rw [hgd]
    have := @List.findIdx_getElem _ (fun c => c.pos_pattern != p)
      s.sessionQueue hlt
    simpa using this
  · intro j cj hj hcj
    have hj2 : j < s.sessionQueue.length := lt_trans hj hlt
    rw [List.getElem?_eq_getElem hj2] at hcj
    injection hcj with hcj
    have := List.not_of_lt_findIdx hj
    rw [hcj] at this
    simpa using this
  · have hgd : s.sessionQueue.getD
        (s.sessionQueue.findIdx (fun c => c.pos_pattern != p)) (baseCard "") =
        s.sessionQueue[s.sessionQueue.findIdx (fun c => c.pos_pattern != p)] := by
      rw [List.getD_eq_getElem?_getD, List.getElem?_eq_getElem hlt]
      rfl
    unfold getNextCard
    simp only [hie, Bool.false_eq_true, if_false, hlp]
    rw [if_neg hp, hfind]
    dsimp only
    by_cases hi : 0 < s.sessionQueue.findIdx (fun c => c.pos_pattern != p)
    · rw [if_pos hi, List.getElem?_eq_getElem hlt]
      dsimp only
      rw [hgd]
    · rw [if_neg hi]
      have hi0 : s.sessionQueue.findIdx (fun c => c.pos_pattern != p) = 0 := by
        omega
      rw [hi0, hQ]
      rfl

/-- Witness for C8: a queue whose front card repeats the last pattern and
whose second card does not. -/
theorem c8_witness :
    ∃ i c, c8State.sessionQueue[i]? = some c ∧ c.pos_pattern ≠ "p" ∧
      (∀ j cj, j < i → c8State.sessionQueue[j]? = some cj →
        cj.pos_pattern = "p") ∧
      getNextCard c8State 0 =
        ({ c8State with sessionQueue := c8State.sessionQueue.eraseIdx i },
          some c) :=
  c8_pattern_rotation c8State 0 "p"
    (List.cons_ne_nil _ _) rfl (by decide)
    ⟨{ baseCard "y" with pos_pattern := "q" },
      List.mem_cons_of_mem _ (List.mem_cons_self _ _), by decide⟩

/-- C6: a grade of Again on a canonical card with a pattern group whose
recorded error history holds at least `reactivationLapseThreshold`
entries within the trailing 30 days makes `processReview` restore up to 3
graduated siblings (`graduated = false`, state Relearning,
`learning_step = 0`, `consecutive_correct = 0`, due = now); the
reactivation check does nothing for a non-canonical card and is not run
for a grade other than Again. -/
theorem c6_reactivation :
    (∀ (shuffle : List Card → List Card) (s : SRSState) (cardId : String)
        (card : Card) (gp : String) (errInfo : Option String) (now : ℚ),
      WF s → (∀ l, (shuffle l).Perm l) →
      lookupKey cardId s.cards = some card →
      (∃ m, lookupKey cardId s.drillMeta = some m ∧ m.is_canonical = true ∧
        m.pattern_group = some gp ∧ gp ≠ "") →
      reactivationLapseThreshold ≤
        ((recordError card.error_history errInfo now).filter
          (fun e => now - 30 * msPerDay < e.timestamp)).length →
      ((shuffle (getGraduatedSiblings
          (applyMain s cardId card Rating.Again errInfo now)
          (some gp))).take 3).length =
        min 3 (getGraduatedSiblings
          (applyMain s cardId card Rating.Again errInfo now) (some gp)).length ∧
      ∀ c ∈ (shuffle (getGraduatedSiblings
          (applyMain s cardId card Rating.Again errInfo now) (some gp))).take 3,
        ∃ c2, lookupKey c.id
            (processReview shuffle s cardId Rating.Again errInfo now).1.cards =
          some c2 ∧ c2.graduated = false ∧ c2.state = CState.Relearning ∧
          c2.learning_step = 0 ∧ c2.consecutive_correct = 0 ∧ c2.due = now) ∧
    (∀ (shuffle : List Card → List Card) (now : ℚ) (s : SRSState)
        (cardId : String) (m : Meta),
      lookupKey cardId s.drillMeta = some m → m.is_canonical = false →
      checkReactivation shuffle now s cardId = s) ∧
    (∀ (shuffle : List Card → List Card) (s : SRSState) (cardId : String)
        (grade : Rating) (errInfo : Option String) (now : ℚ),
      ¬grade = Rating.Again →
      (processReview shuffle s cardId grade errInfo now).1 =
        match lookupKey cardId s.cards with
        | none => s
        | some card =>
          checkGraduation shuffle now
            (applyMain s cardId card grade errInfo now) cardId grade) := by
  refine ⟨?_, ?_, ?_⟩
  · intro shuffle s cardId card gp errInfo now hwf hperm hc hmeta hlap
    obtain ⟨m, hm, hcanon, hmg, hgp⟩ := hmeta
    have hfinal : (processReview shuffle s cardId Rating.Again errInfo now).1 =
        checkReactivation shuffle now
          (applyMain s cardId card Rating.Again errInfo now) cardId := by
      unfold processReview
      rw [hc]
      dsimp only
      rw [if_pos rfl]
      have hg : checkGraduation shuffle now
          (applyMain s cardId card Rating.Again errInfo now) cardId
          Rating.Again =
          applyMain s cardId card Rating.Again errInfo now := by
        unfold checkGraduation
        rw [if_pos (by decide)]
      rw [hg]
    have hwf1 : WF (applyMain s cardId card Rating.Again errInfo now) :=
      (applyMain_inv s cardId card Rating.Again errInfo now hwf hc).1
    have hlook1 : lookupKey cardId
        (applyMain s cardId card Rating.Again errInfo now).cards =
        some (reviewCard card Rating.Again errInfo now).1 := by
      have hcards : (applyMain s cardId card Rating.Again errInfo now).cards =
          updateKey s.cards cardId
            (fun _ => (reviewCard card Rating.Again errInfo now).1) := rfl
      rw [hcards, lookupKey_updateKey, if_pos rfl, hc]
      rfl
    have herr := reviewCard_error_history card Rating.Again errInfo now
    have hreact : checkReactivation shuffle now
        (applyMain s cardId card Rating.Again errInfo now) cardId =
        { applyMain s cardId card Rating.Again errInfo now with
            cards := List.foldl (foldStep (reactivateCard now))
              (applyMain s cardId card Rating.Again errInfo now).cards
              ((shuffle (getGraduatedSiblings
                (applyMain s cardId card Rating.Again errInfo now)
                m.pattern_group)).take 3) } := by
      unfold checkReactivation
      rw [show lookupKey cardId
          (applyMain s cardId card Rating.Again errInfo now).drillMeta =
          some m from hm]
      dsimp only
      rw [if_neg (by rw [hcanon]; simp),
        if_neg (by rw [hmg]; simp [truthy, hgp]), hlook1]
      dsimp only
      rw [if_pos (by rw [herr]; exact hlap)]
    rw [hmg] at hreact
    constructor
    · rw [List.length_take, (hperm _).length_eq]
    · intro c hcR
      have hcsh : c ∈ shuffle (getGraduatedSiblings
          (applyMain s cardId card Rating.Again errInfo now) (some gp)) :=
        List.take_subset _ _ hcR
      have hcG := (hperm _).mem_iff.mp hcsh
      have hcS : c ∈ getSiblingCards
          (applyMain s cardId card Rating.Again errInfo now) (some gp) :=
        (List.mem_filter.mp hcG).1
      obtain ⟨hlk, _, _⟩ := mem_getSiblingCards hwf1 hcS
      rw [hfinal, hreact]
      obtain ⟨c2, hc2, hP⟩ := @lookupKey_foldStep_hit
        (fun v => v.graduated = false ∧ v.state = CState.Relearning ∧
          v.learning_step = 0 ∧ v.consecutive_correct = 0 ∧ v.due = now)
        (reactivateCard now) (fun v => ⟨rfl, rfl, rfl, rfl, rfl⟩) c
        ((shuffle (getGraduatedSiblings
          (applyMain s cardId card Rating.Again errInfo now) (some gp))).take 3)
        hcR (applyMain s cardId card Rating.Again errInfo now).cards c hlk
      exact ⟨c2, hc2, hP.1, hP.2.1, hP.2.2.1, hP.2.2.2.1, hP.2.2.2.2⟩
  · intro shuffle now s cardId m hm hcanon
    unfold checkReactivation
    rw [hm]
    dsimp only
    rw [if_pos (by rw [hcanon]; simp)]
  · intro shuffle s cardId grade errInfo now hag
    unfold processReview
    rcases hc : lookupKey cardId s.cards with _ | card
    · rfl
    · dsimp only
      rw [if_neg hag]

/-- Witness for C6 at a concrete canonical with two recent errors and two
graduated siblings, using identity randomness. -/
theorem c6_witness :
    ((((fun l => l) : List Card → List Card) (getGraduatedSiblings
        (applyMain c6State "a" c6CardA Rating.Again none 0)
        (some "g"))).take 3).length =
      min 3 (getGraduatedSiblings
        (applyMain c6State "a" c6CardA Rating.Again none 0) (some "g")).length ∧
    ∀ c ∈ (((fun l => l) : List Card → List Card) (getGraduatedSiblings
        (applyMain c6State "a" c6CardA Rating.Again none 0) (some "g"))).take 3,
      ∃ c2, lookupKey c.id
          (processReview (fun l => l) c6State "a" Rating.Again none 0).1.cards =
        some c2 ∧ c2.graduated = false ∧ c2.state = CState.Relearning ∧
        c2.learning_step = 0 ∧ c2.consecutive_correct = 0 ∧ c2.due = 0 := by
  refine c6_reactivation.1 (fun l => l) c6State "a" c6CardA "g" none 0
    ?_ (fun l => List.Perm.refl l) rfl
    ⟨⟨some "g", true⟩, rfl, rfl, rfl, by decide⟩ ?_
  · unfold WF
    exact ⟨by decide, by decide, by decide⟩
  · show reactivationLapseThreshold ≤ ((recordError c6CardA.error_history none 0).filter
      (fun e => (0:ℚ) - 30 * msPerDay < e.timestamp)).length
    have h1 : ((0:ℚ) - 30 * msPerDay < -100) := by norm_num [msPerDay]
    have h2 : ((0:ℚ) - 30 * msPerDay < -200) := by norm_num [msPerDay]
    have he : recordError c6CardA.error_history none 0 =
        [⟨"grammar", -100⟩, ⟨"grammar", -200⟩] := rfl
    rw [he]
    simp only [reactivationLapseThreshold, List.filter, decide_eq_true h1,
      decide_eq_true h2, List.length_cons, List.length_nil]
    omega

/-- Counterexample to C7 as stated: for a graduated canonical card the
reactivation check's candidate set contains the triggering card itself,
and the check then reactivates the triggering card. -/
theorem c7_counterexample :
    (getGraduatedSiblings c7State (some "g")).map Card.id = ["a"] ∧
    lookupKey "a" c7State.drillMeta = some ⟨some "g", true⟩ ∧
    Option.map Card.graduated (lookupKey "a" c7State.cards) = some true ∧
    Option.map Card.graduated (lookupKey "a"
      (checkReactivation (fun l => l) 0 c7State "a").cards) = some false := by
  refine ⟨rfl, rfl, rfl, ?_⟩
  have hthr : reactivationLapseThreshold ≤
      (c7CardA.error_history.filter
        (fun e => (0:ℚ) - 30 * msPerDay < e.timestamp)).length := by
    have h1 : ((0:ℚ) - 30 * msPerDay < -100) := by norm_num [msPerDay]
    have h2 : ((0:ℚ) - 30 * msPerDay < -200) := by norm_num [msPerDay]
    have he : c7CardA.error_history =
        [⟨"grammar", -100⟩, ⟨"grammar", -200⟩] := rfl
    rw [he]
    simp only [reactivationLapseThreshold, List.filter, decide_eq_true h1,
      decide_eq_true h2, List.length_cons, List.length_nil]
    omega
  unfold checkReactivation
  simp only [show lookupKey "a" c7State.drillMeta =
      some (⟨some "g", true⟩ : Meta) from rfl,
    show lookupKey "a" c7State.cards = some c7CardA from rfl]
  rw [if_neg (by decide), if_neg (by decide), if_pos hthr]
  rfl

/-- C7 (amended): the graduation check's candidate sets contain only
cards of the same pattern group (looked up in the drill metadata table)
and never the triggering card; the reactivation check's candidate set
contains only graduated cards of the same pattern group, so it excludes
the triggering card whenever that card is itself not graduated (a
graduated canonical can appear in its own reactivation set). -/
theorem c7_sibling_sets :
    (∀ (s : SRSState) (pg : Option String) (cardId : String) (c : Card),
      WF s →
      c ∈ (getSiblingCards s pg).filter
        (fun c => c.graduated && c.id != cardId) →
      c.id ≠ cardId ∧ c.graduated = true ∧
        ∃ m, lookupKey c.id s.drillMeta = some m ∧ m.pattern_group = pg) ∧
    (∀ (s : SRSState) (pg : Option String) (cardId : String) (c : Card),
      WF s →
      c ∈ (getSiblingCards s pg).filter
        (fun c => !c.graduated && c.id != cardId) →
      c.id ≠ cardId ∧ c.graduated = false ∧
        ∃ m, lookupKey c.id s.drillMeta = some m ∧ m.pattern_group = pg) ∧
    (∀ (s : SRSState) (pg : Option String) (c : Card),
      WF s → c ∈ getGraduatedSiblings s pg →
      c.graduated = true ∧
      (∃ m, lookupKey c.id s.drillMeta = some m ∧ m.pattern_group = pg) ∧
      ∀ (cardId : String) (card : Card),
        lookupKey cardId s.cards = some card → card.graduated = false →
        c.id ≠ cardId) := by
  refine ⟨?_, ?_, ?_⟩
  · intro s pg cardId c hwf hc
    have hf := List.mem_filter.mp hc
    have hb := hf.2
    simp only [Bool.and_eq_true, bne_iff_ne] at hb
    obtain ⟨_, hmeta, _⟩ := mem_getSiblingCards hwf hf.1
    exact ⟨hb.2, hb.1, hmeta⟩
  · intro s pg cardId c hwf hc
    have hf := List.mem_filter.mp hc
    have hb := hf.2
    simp only [Bool.and_eq_true, bne_iff_ne, Bool.not_eq_true'] at hb
    obtain ⟨_, hmeta, _⟩ := mem_getSiblingCards hwf hf.1
    exact ⟨hb.2, hb.1, hmeta⟩
  · intro s pg c hwf hc
    have hf := List.mem_filter.mp hc
    obtain ⟨hlk, hmeta, _⟩ := mem_getSiblingCards hwf hf.1
    refine ⟨hf.2, hmeta, ?_⟩
    intro cardId card hcard hgrad he
    rw [he] at hlk
    rw [hcard] at hlk
    injection hlk with hlk
    rw [hlk] at hgrad
    rw [hf.2] at hgrad
    exact Bool.noConfusion hgrad

/-- Witness for the amended C7: a graduated sibling of the concrete
reactivation state is graduated, carries the group in the metadata table,
and differs from any non-graduated triggering card. -/
theorem c7_witness :
    c6CardB.graduated = true ∧
    (∃ m, lookupKey c6CardB.id c6State.drillMeta = some m ∧
      m.pattern_group = some "g") ∧
    (∀ (cardId : String) (card : Card),
      lookupKey cardId c6State.cards = some card → card.graduated = false →
      c6CardB.id ≠ cardId) := by
  refine c7_sibling_sets.2.2 c6State (some "g") c6CardB ?_ ?_
  · unfold WF
    exact ⟨by decide, by decide, by decide⟩
  · have hG : getGraduatedSiblings c6State (some "g") =
        [c6CardB, c6CardC] := rfl
    rw [hG]
    exact List.mem_cons_self _ _

end FsiSrs
